import Mathlib

/-!
Verification of the symbol-navigation and rename-refactoring engine
(`crates/ide/src/goto_definition.rs` and `crates/ide/src/references/rename.rs`).

The external collaborators (parser, semantic model, symbol index) are
modelled as abstract query functions collected in a context structure;
the orchestration logic of the two source files is translated faithfully.
-/

namespace RA

/-- A text range `[start, stop)` in a file, in byte offsets (rowan `TextRange`). -/
structure TextRange where
  start : Nat
  stop : Nat
deriving DecidableEq, Repr

/-- rowan `TextRange::contains`: `start <= offset < end`. -/
def TextRange.contains (r : TextRange) (o : Nat) : Bool :=
  decide (r.start ≤ o ∧ o < r.stop)

/-- rowan `TextRange::contains_inclusive`: `start <= offset <= end`. -/
def TextRange.contains_inclusive (r : TextRange) (o : Nat) : Bool :=
  decide (r.start ≤ o ∧ o ≤ r.stop)

/-- rowan `TextRange::intersect`: the overlap when the two ranges touch or overlap. -/
def TextRange.intersect (a b : TextRange) : Option TextRange :=
  let s := max a.start b.start
  let e := min a.stop b.stop
  if s ≤ e then some ⟨s, e⟩ else none

/-- Two ranges are disjoint when one ends before the other starts
(empty ranges may touch). -/
def TextRange.disjoint (a b : TextRange) : Prop :=
  a.stop ≤ b.start ∨ b.stop ≤ a.start

/-- `a` lies inside `b`. -/
def TextRange.subrange (a b : TextRange) : Prop :=
  b.start ≤ a.start ∧ a.stop ≤ b.stop

/-- The token kinds this subsystem inspects (`syntax::SyntaxKind`), with the
kinds it never names collapsed into representatives (`LET_KW` for the other
keywords, `PUNCT` for punctuation, `ERROR` for error tokens). -/
inductive SyntaxKind where
  | IDENT
  | INT_NUMBER
  | LIFETIME_IDENT
  | SELF_KW
  | UNDERSCORE
  | WHITESPACE
  | COMMENT
  | LET_KW
  | PUNCT
  | ERROR
deriving DecidableEq, Repr

/-- `SyntaxKind::is_trivia`: whitespace and comments. -/
def SyntaxKind.is_trivia : SyntaxKind → Bool
  | .WHITESPACE => true
  | .COMMENT => true
  | _ => false

/-- A syntax-tree leaf: kind, range, text. -/
structure SyntaxToken where
  kind : SyntaxKind
  range : TextRange
  text : String
deriving DecidableEq, Repr

/-- rowan `TokenAtOffset`: the 0, 1 or 2 candidate tokens at an offset; at a
boundary the left token comes first in iteration order. -/
inductive TokenAtOffset where
  | none
  | single (t : SyntaxToken)
  | between (l r : SyntaxToken)
deriving DecidableEq, Repr

/-- Iteration order of `TokenAtOffset`: left before right. -/
def TokenAtOffset.toList : TokenAtOffset → List SyntaxToken
  | .none => []
  | .single t => [t]
  | .between l r => [l, r]

/-- `goto_definition.rs::pick_best`'s key: identifiers, integer literals,
lifetime identifiers and the `self` keyword rank 2, trivia 0, the rest 1. -/
def priority (n : SyntaxToken) : Nat :=
  match n.kind with
  | .IDENT => 2
  | .INT_NUMBER => 2
  | .LIFETIME_IDENT => 2
  | .SELF_KW => 2
  | k => if k.is_trivia then 0 else 1

/-- Rust `Iterator::max_by_key`: of several equally maximal elements the
last is returned. -/
def maxByKeyLast (f : SyntaxToken → Nat) : List SyntaxToken → Option SyntaxToken
  | [] => Option.none
  | x :: xs => some (xs.foldl (fun a b => if f b < f a then a else b) x)

/-- `goto_definition.rs::pick_best`: `tokens.max_by_key(priority)`. -/
def pick_best (tokens : TokenAtOffset) : Option SyntaxToken :=
  maxByKeyLast priority tokens.toList

/-- `base_db::FileId`. -/
structure FileId where
  id : Nat
deriving DecidableEq, Repr

/-- `FilePosition`: file identifier and byte offset. -/
structure FilePosition where
  file_id : FileId
  offset : Nat
deriving DecidableEq, Repr

/-- `FileRange`: file identifier and range. -/
structure FileRange where
  file_id : FileId
  range : TextRange
deriving DecidableEq, Repr

/-- `crate::ReferenceKind`. -/
inductive ReferenceKind where
  | FieldShorthandForField
  | FieldShorthandForLocal
  | RecordFieldExprOrPat
  | Lifetime
  | Plain
deriving DecidableEq, Repr

/-- `crate::Reference`: one occurrence of a use of a definition. -/
structure Reference where
  file_range : FileRange
  kind : ReferenceKind
deriving DecidableEq, Repr

/-- One insert/delete/replace (`text_edit::Indel`); every `TextEdit` this
subsystem builds holds exactly one (`TextEdit::replace`). -/
structure Indel where
  delete : TextRange
  insert : String
deriving DecidableEq, Repr

/-- `SourceFileEdit`: a text edit scoped to one file. -/
structure SourceFileEdit where
  file_id : FileId
  edit : Indel
deriving DecidableEq, Repr

/-- `base_db::AnchoredPathBuf`. -/
structure AnchoredPathBuf where
  anchor : FileId
  path : String
deriving DecidableEq, Repr

/-- `crate::FileSystemEdit` (only `MoveFile` is produced here). -/
inductive FileSystemEdit where
  | MoveFile (src : FileId) (dst : AnchoredPathBuf)
deriving DecidableEq, Repr

/-- `crate::SourceChange`. -/
structure SourceChange where
  source_file_edits : List SourceFileEdit
  file_system_edits : List FileSystemEdit
  is_snippet : Bool
deriving DecidableEq, Repr

/-- `SourceChange::from_edits`. -/
def SourceChange.from_edits (source_file_edits : List SourceFileEdit)
    (file_system_edits : List FileSystemEdit) : SourceChange :=
  ⟨source_file_edits, file_system_edits, false⟩

/-- `SourceChange::from(Vec<SourceFileEdit>)`. -/
def SourceChange.fromFileEdits (edits : List SourceFileEdit) : SourceChange :=
  ⟨edits, [], false⟩

/-- `crate::RangeInfo`. -/
structure RangeInfo (α : Type) where
  range : TextRange
  info : α
deriving DecidableEq, Repr

/-- `RenameError(String)`: a message-carrying failure. -/
abbrev RenameError := String

/-- `ReferenceSearchResult`: the declaration plus the usages of one definition. -/
structure ReferenceSearchResult where
  declaration : Reference
  references : List Reference
deriving DecidableEq, Repr

/-- `ReferenceSearchResult::into_iter`: the declaration, then the usages. -/
def ReferenceSearchResult.into_iter (r : ReferenceSearchResult) : List Reference :=
  r.declaration :: r.references

/-- A semantic type (`hir::Type`) as far as this subsystem inspects it:
a reference (shared or mutable) or any other type, compared for equality. -/
inductive Ty where
  | ref (isMut : Bool) (inner : Ty)
  | named (name : String)
deriving DecidableEq, Repr

/-- `Type::remove_ref`: strip one layer of reference. -/
def Ty.remove_ref : Ty → Option Ty
  | .ref _ t => some t
  | .named _ => none

/-- `Type::is_mutable_reference`. -/
def Ty.is_mutable_reference : Ty → Bool
  | .ref m _ => m
  | .named _ => false

/-- `ast::RecordExprField` as consulted by the edit synthesizer:
`field_expr.expr().and_then(name_ref)`'s text, and the node's range. -/
structure RecordExprFieldNode where
  exprNameRefText : Option String
  nodeRange : TextRange
deriving DecidableEq, Repr

/-- `ast::Pat` as consulted by the edit synthesizer: an `IdentPat` with its
(optional) name, or any other pattern. -/
inductive PatNode where
  | identPat (name : Option String)
  | otherPat
deriving DecidableEq, Repr

/-- `ast::RecordPatField`: its pattern and the node's range. -/
structure RecordPatFieldNode where
  pat : Option PatNode
  nodeRange : TextRange
deriving DecidableEq, Repr

/-- `hir::ModuleSource`: a standalone source file or an inline module. -/
inductive ModuleSourceKind where
  | sourceFile
  | inlineModule
deriving DecidableEq, Repr

/-- `hir::Module` as consulted by `rename_mod`: the kind and file of its
definition source, whether its file is a `mod.rs`-style file, and the file
and name-token range of its `mod name;` declaration site, when any. -/
structure ModuleModel where
  definition_source_kind : ModuleSourceKind
  definition_file : FileId
  is_mod_rs : Bool
  declaration_source : Option (FileId × TextRange)
deriving DecidableEq, Repr

/-- The enclosing `ast::Fn` together with its semantic `hir::Function`
(`find_node_at_offset::<ast::Fn>` zipped with `sema.to_def`), as consulted
by `rename_to_self`: the first parameter's syntax range, whether the
function already has a self parameter, and the first parameter's type. -/
structure FnModel where
  param_range : Option TextRange
  has_self_param : Bool
  first_param_ty : Option Ty
deriving DecidableEq, Repr

/-- The enclosing `ast::Impl`'s semantic `hir::Impl`: its target type. -/
structure ImplModel where
  target_ty : Ty
deriving DecidableEq, Repr

/-- `ast::Type` as consulted by `text_edit_from_self_param::target_type_name`:
a path type with the text of `path.segment.name_ref` when that chain exists. -/
inductive AstTypeNode where
  | pathType (segName : Option String)
  | otherType
deriving DecidableEq, Repr

/-- `ast::Impl` as a syntax node: its `self_ty`. -/
structure ImplAstNode where
  self_ty : Option AstTypeNode
deriving DecidableEq, Repr

/-- `ast::SelfParam`: node range, and presence of the `&` and `mut` tokens. -/
structure SelfParamNode where
  range : TextRange
  hasAmp : Bool
  hasMut : Bool
deriving DecidableEq, Repr

/-- A token of kind `SELF_KW` found at an offset
(`token_at_offset(o).find(kind == SELF_KW)`), with the result of
`ast::SelfParam::cast` on its parent. -/
structure SelfKwToken where
  range : TextRange
  parent_self_param : Option SelfParamNode
deriving DecidableEq, Repr

/-- The immutable snapshot the engine queries: each field models one
external capability of the parser, the semantic model or the symbol index
(spec sections 5 and 6), plus the lexer `syntax::lex_single_syntax_kind`. -/
structure Ctx where
  lex_single_syntax_kind : String → Option (SyntaxKind × Option String)
  find_all_refs : FilePosition → Option (RangeInfo ReferenceSearchResult)
  find_module_at_offset : FilePosition → Option ModuleModel
  self_kw_at : FileId → Nat → Option SelfKwToken
  recordExprFieldAt : FileId → TextRange → Option RecordExprFieldNode
  recordPatFieldAt : FileId → TextRange → Option RecordPatFieldNode
  fn_at_offset : FilePosition → Option FnModel
  impl_at_offset : FilePosition → Option ImplModel
  fn_ast_at_offset : FilePosition → Option TextRange
  impl_at : FileId → Nat → Option ImplAstNode
  file_text : FileId → String

/-- `rename.rs::edit_text_range_for_record_field_expr_or_pat`: widen the
reference's range to the whole record-field node when the node's other half
already spells the new name; otherwise keep the original range. -/
def edit_text_range_for_record_field_expr_or_pat (ctx : Ctx) (file_range : FileRange)
    (new_name : String) : TextRange :=
  let original_range := file_range.range
  let fromExpr : Option TextRange :=
    (ctx.recordExprFieldAt file_range.file_id original_range).bind fun field_expr =>
      match field_expr.exprNameRefText with
      | some name => if name = new_name then some field_expr.nodeRange else Option.none
      | Option.none => Option.none
  let fromPat : Option TextRange :=
    (ctx.recordPatFieldAt file_range.file_id original_range).bind fun field_pat =>
      match field_pat.pat with
      | some (.identPat (some n)) => if n = new_name then some field_pat.nodeRange else Option.none
      | _ => Option.none
  ((fromExpr).orElse fun _ => fromPat).getD original_range

/-- `rename.rs::source_edit_from_reference`: the edit synthesizer, one edit
per reference, dispatched on the reference's kind. -/
def source_edit_from_reference (ctx : Ctx) (reference : Reference)
    (new_name : String) : SourceFileEdit :=
  let r := reference.file_range.range
  let e : Indel :=
    match reference.kind with
    | .FieldShorthandForField => ⟨⟨r.start, r.start⟩, new_name ++ ": "⟩
    | .FieldShorthandForLocal => ⟨⟨r.stop, r.stop⟩, ": " ++ new_name⟩
    | .RecordFieldExprOrPat =>
      ⟨edit_text_range_for_record_field_expr_or_pat ctx reference.file_range new_name, new_name⟩
    | _ => ⟨r, new_name⟩
  ⟨reference.file_range.file_id, e⟩

/-- `rename.rs::rename_mod`: queue a file move for a file-backed module, a
text edit at the `mod name;` declaration site when there is one, then the
generic edits for every usage. -/
def rename_mod (ctx : Ctx) (position : FilePosition) (module : ModuleModel)
    (new_name : String) : Except RenameError (RangeInfo SourceChange) :=
  let file_system_edits : List FileSystemEdit :=
    match module.definition_source_kind with
    | .sourceFile =>
      let path := if module.is_mod_rs then "../" ++ new_name ++ "/mod.rs"
        else new_name ++ ".rs"
      [.MoveFile module.definition_file ⟨module.definition_file, path⟩]
    | .inlineModule => []
  let decl_edits : List SourceFileEdit :=
    match module.declaration_source with
    | some (fid, nameRange) => [⟨fid, ⟨nameRange, new_name⟩⟩]
    | Option.none => []
  match ctx.find_all_refs position with
  | Option.none => .error "No references found at position"
  | some ⟨range, refs⟩ =>
    let ref_edits := refs.references.map fun reference =>
      source_edit_from_reference ctx reference new_name
    .ok ⟨range, SourceChange.from_edits (decl_edits ++ ref_edits) file_system_edits⟩

/-- The `(ty, self_param)` computation of `rename.rs::rename_to_self`: the
checked type and the replacement self form. -/
def computeSelfTyForm (first_param_ty impl_ty : Ty) : Ty × String :=
  if (impl_ty.remove_ref).isSome then (first_param_ty, "self")
  else
    match first_param_ty.remove_ref with
    | Option.none => (first_param_ty, "self")
    | some ty => (ty, if first_param_ty.is_mutable_reference then "&mut self" else "&self")

/-- `rename.rs::rename_to_self`: the self-introduction strategy. -/
def rename_to_self (ctx : Ctx) (position : FilePosition) :
    Except RenameError (RangeInfo SourceChange) :=
  match ctx.fn_at_offset position with
  | Option.none => .error "No surrounding method declaration found"
  | some fn_def =>
    match fn_def.param_range with
    | Option.none => .error "Method has no parameters"
    | some param_range =>
      if param_range.contains position.offset = false then
        .error "Only the first parameter can be self"
      else
        match ctx.impl_at_offset position with
        | Option.none => .error "No impl block found for function"
        | some impl_block =>
          if fn_def.has_self_param then .error "Method already has a self parameter"
          else
            match fn_def.first_param_ty with
            | Option.none => .error "Method has no parameters"
            | some first_param_ty =>
              let impl_ty := impl_block.target_ty
              let tyForm := computeSelfTyForm first_param_ty impl_ty
              if tyForm.1 ≠ impl_ty then
                .error "Parameter type differs from impl block type"
              else
                match ctx.find_all_refs position with
                | Option.none => .error "No reference found at position"
                | some ⟨range, refs⟩ =>
                  let parts := refs.into_iter.partition fun reference =>
                    (param_range.intersect reference.file_range.range).isSome
                  if parts.1.isEmpty then .error "Parameter to rename not found"
                  else
                    let edits := (parts.2.map fun reference =>
                        source_edit_from_reference ctx reference "self") ++
                      [⟨position.file_id, ⟨param_range, tyForm.2⟩⟩]
                    .ok ⟨range, SourceChange.fromFileEdits edits⟩

/-- `text_edit_from_self_param::target_type_name`: the simple path name of
an impl block's target type. -/
def target_type_name (impl_def : ImplAstNode) : Option String :=
  match impl_def.self_ty with
  | some (.pathType n) => n
  | _ => Option.none

/-- The ownership text `text_edit_from_self_param` pushes after `name: `,
from the self parameter's `&` and `mut` tokens. -/
def ownershipText (self_param : SelfParamNode) : String :=
  match self_param.hasAmp, self_param.hasMut with
  | false, false => ""
  | true, false => "&"
  | _, true => "&mut "

/-- `rename.rs::text_edit_from_self_param`: rewrite the self-parameter
declaration to `name: <ownership><TargetType>`. -/
def text_edit_from_self_param (ctx : Ctx) (fid : FileId) (self_param : SelfParamNode)
    (new_name : String) : Option Indel :=
  match ctx.impl_at fid self_param.range.start with
  | Option.none => Option.none
  | some impl_def =>
    match target_type_name impl_def with
    | Option.none => Option.none
    | some type_name =>
      some ⟨self_param.range, new_name ++ ": " ++ ownershipText self_param ++ type_name⟩

/-- Rust `str::match_indices` with explicit fuel (one unit per character of
the scanned text): indices of the disjoint matches of `pat`, scanning left
to right and skipping the length of the pattern past each match. -/
def matchIndicesFuel (pat : List Char) : Nat → List Char → Nat → List Nat
  | 0, _, _ => []
  | _, [], _ => []
  | fuel + 1, c :: rest, i =>
    if pat.isPrefixOf (c :: rest) then
      i :: matchIndicesFuel pat fuel (List.drop (pat.length - 1) rest) (i + pat.length)
    else
      matchIndicesFuel pat fuel rest (i + 1)

/-- `text.match_indices(pat)` over the characters of a string. -/
def matchIndices (text : String) (pat : String) : List Nat :=
  matchIndicesFuel pat.toList text.toList.length text.toList 0

/-- The body of the `for (idx, _) in text.match_indices("self")` loop of
`rename.rs::rename_self_to_param`, over the list of match indices: skip
indices outside the function's range or not confirmed by the tree to be a
`self` token; rewrite the self-parameter declaration via
`text_edit_from_self_param` (failing with "No target type found" when it
returns nothing) and every other confirmed occurrence to the new name. -/
def collectSelfEdits (ctx : Ctx) (fid : FileId) (search_range : TextRange)
    (new_name : String) : List Nat → Except RenameError (List SourceFileEdit)
  | [] => .ok []
  | idx :: rest =>
    if search_range.contains_inclusive idx = false then
      collectSelfEdits ctx fid search_range new_name rest
    else
      match ctx.self_kw_at fid idx with
      | Option.none => collectSelfEdits ctx fid search_range new_name rest
      | some usage =>
        match usage.parent_self_param with
        | some self_param =>
          match text_edit_from_self_param ctx fid self_param new_name with
          | Option.none => .error "No target type found"
          | some edit =>
            (collectSelfEdits ctx fid search_range new_name rest).map
              fun es => ⟨fid, edit⟩ :: es
        | Option.none =>
          (collectSelfEdits ctx fid search_range new_name rest).map
            fun es => ⟨fid, ⟨usage.range, new_name⟩⟩ :: es

/-- `rename.rs::rename_self_to_param`: the self-removal strategy; scan the
file text for `self` within the enclosing function's range, confirm each
occurrence against the tree, and rewrite it. -/
def rename_self_to_param (ctx : Ctx) (position : FilePosition)
    (self_token : SelfKwToken) (new_name : String) :
    Except RenameError (RangeInfo SourceChange) :=
  match ctx.fn_ast_at_offset position with
  | Option.none => .error "No surrounding method declaration found"
  | some search_range =>
    let text := ctx.file_text position.file_id
    match collectSelfEdits ctx position.file_id search_range new_name
        (matchIndices text "self") with
    | .error e => .error e
    | .ok edits =>
      let range :=
        match self_token.parent_self_param with
        | some p => p.range
        | Option.none => self_token.range
      .ok ⟨range, SourceChange.fromFileEdits edits⟩

/-- `rename.rs::rename_reference`: the generic rename; check the
identifier/lifetime category against the declaration, then synthesize one
edit per reference. -/
def rename_reference (ctx : Ctx) (position : FilePosition) (new_name : String)
    (is_lifetime_name : Bool) : Except RenameError (RangeInfo SourceChange) :=
  match ctx.find_all_refs position with
  | Option.none => .error "No references found at position"
  | some ⟨range, refs⟩ =>
    match decide (refs.declaration.kind = ReferenceKind.Lifetime), is_lifetime_name with
    | true, false =>
      .error ("Invalid name `" ++ new_name ++ "`: not a lifetime identifier")
    | false, true =>
      .error ("Invalid name `" ++ new_name ++ "`: not an identifier")
    | _, _ =>
      let edit := refs.into_iter.map fun reference =>
        source_edit_from_reference ctx reference new_name
      if edit.isEmpty then .error "No references found at position"
      else .ok ⟨range, SourceChange.fromFileEdits edit⟩

/-- Lines 97-110 of `rename.rs::rename_with_semantics`: the dispatch after
the new name has been lexed (lifetime renames are kept away from modules
and `self`; a module under the cursor takes the module strategy; a `self`
keyword token under the cursor takes self-removal; otherwise generic). -/
def rename_after_lex (ctx : Ctx) (position : FilePosition) (new_name : String)
    (is_lifetime_name : Bool) : Except RenameError (RangeInfo SourceChange) :=
  if is_lifetime_name then rename_reference ctx position new_name is_lifetime_name
  else
    match ctx.find_module_at_offset position with
    | some module => rename_mod ctx position module new_name
    | Option.none =>
      match ctx.self_kw_at position.file_id position.offset with
      | some self_token => rename_self_to_param ctx position self_token new_name
      | Option.none => rename_reference ctx position new_name is_lifetime_name

/-- `rename.rs::rename_with_semantics`: lex the proposed new name in
isolation, fail on anything but an identifier, an underscore, `self`, or a
lifetime identifier other than `'static` and `'_`, then dispatch. -/
def rename_with_semantics (ctx : Ctx) (position : FilePosition) (new_name : String) :
    Except RenameError (RangeInfo SourceChange) :=
  match ctx.lex_single_syntax_kind new_name with
  | some (.IDENT, _) => rename_after_lex ctx position new_name false
  | some (.UNDERSCORE, _) => rename_after_lex ctx position new_name false
  | some (.SELF_KW, _) => rename_to_self ctx position
  | some (.LIFETIME_IDENT, _) =>
    if new_name ≠ "'static" ∧ new_name ≠ "'_" then
      rename_after_lex ctx position new_name true
    else
      .error ("Invalid name `" ++ new_name ++ "`: Cannot rename lifetime to " ++ new_name)
  | some (_, some syntax_error) =>
    .error ("Invalid name `" ++ new_name ++ "`: " ++ syntax_error)
  | some (_, Option.none) =>
    .error ("Invalid name `" ++ new_name ++ "`: not an identifier")
  | Option.none =>
    .error ("Invalid name `" ++ new_name ++ "`: not an identifier")

/-- `rename.rs::prepare_rename`: run the module or self-removal strategy
with the placeholder name "dummy", or just the reference search, and keep
only the range. -/
def prepare_rename (ctx : Ctx) (position : FilePosition) :
    Except RenameError (RangeInfo Unit) :=
  let step : Except RenameError (RangeInfo SourceChange) :=
    match ctx.find_module_at_offset position with
    | some module => rename_mod ctx position module "dummy"
    | Option.none =>
      match ctx.self_kw_at position.file_id position.offset with
      | some self_token => rename_self_to_param ctx position self_token "dummy"
      | Option.none =>
        match ctx.find_all_refs position with
        | some ⟨range, _⟩ => .ok ⟨range, SourceChange.fromFileEdits []⟩
        | Option.none => .error "No references found at position"
  step.map fun info => ⟨info.range, ()⟩

/-- `crate::NavigationTarget` (the fields `goto_definition` returns; display
metadata beyond the name is irrelevant to the claims and omitted). -/
structure NavigationTarget where
  file_id : FileId
  full_range : TextRange
  focus_range : Option TextRange
  name : String
deriving DecidableEq, Repr

/-- The snapshot `goto_definition` queries: the file's tokens at an offset,
the semantic model's macro descent, and the whole `match_ast!` dispatch on
the descended token's parent (reference resolution, navigation building)
as one external query producing the navigation targets or nothing. -/
structure GotoCtx where
  tokens_at : Nat → TokenAtOffset
  descend_into_macros : SyntaxToken → SyntaxToken
  nav_targets_for : SyntaxToken → Option (List NavigationTarget)

/-- `goto_definition.rs::goto_definition`: pick the best token at the
offset, descend it into macros, resolve navigation targets from the
descended token's parent, and return them with the ORIGINAL token's range. -/
def goto_definition (ctx : GotoCtx) (offset : Nat) :
    Option (RangeInfo (List NavigationTarget)) :=
  (pick_best (ctx.tokens_at offset)).bind fun original_token =>
    let token := ctx.descend_into_macros original_token
    (ctx.nav_targets_for token).map fun nav_targets =>
      ⟨original_token.range, nav_targets⟩

/-- Apply one indel to a text: splice the replacement over `[start, stop)`. -/
def applyIndel (text : List Char) (e : Indel) : List Char :=
  text.take e.delete.start ++ e.insert.toList ++ text.drop e.delete.stop

/-- Insert an indel into a list sorted by descending range start. -/
def insertDescIndel (e : Indel) : List Indel → List Indel
  | [] => [e]
  | x :: xs =>
    if x.delete.start ≤ e.delete.start then e :: x :: xs
    else x :: insertDescIndel e xs

/-- Sort indels by descending range start (insertion sort). -/
def sortDescIndels : List Indel → List Indel
  | [] => []
  | x :: xs => insertDescIndel x (sortDescIndels xs)

/-- Apply a set of edits to a file's text: right-to-left, so every range is
interpreted in the original text's coordinates. -/
def applyFileEdits (edits : List SourceFileEdit) (text : String) : List Char :=
  (sortDescIndels (edits.map SourceFileEdit.edit)).foldl applyIndel text.toList

/-- The SourceChange invariant of the spec's data model: any two edits
aimed at the same file have disjoint ranges. -/
def editsDisjointPerFile (edits : List SourceFileEdit) : Prop :=
  List.Pairwise
    (fun a b => a.file_id = b.file_id → a.edit.delete.disjoint b.edit.delete) edits

/-- The lexical forms `rename_with_semantics` lets past its gate: exactly
one identifier, an underscore, the `self` keyword, or a lifetime identifier
other than `'static` and `'_` (stated from the spec's words, to be compared
with the source's gate). -/
def lexGateAllowed (res : Option (SyntaxKind × Option String)) (new_name : String) : Bool :=
  match res with
  | some (.IDENT, _) => true
  | some (.UNDERSCORE, _) => true
  | some (.SELF_KW, _) => true
  | some (.LIFETIME_IDENT, _) => decide (new_name ≠ "'static" ∧ new_name ≠ "'_")
  | _ => false

/-- A context in which every external query comes back empty. -/
def emptyCtx : Ctx where
  lex_single_syntax_kind := fun _ => Option.none
  find_all_refs := fun _ => Option.none
  find_module_at_offset := fun _ => Option.none
  self_kw_at := fun _ _ => Option.none
  recordExprFieldAt := fun _ _ => Option.none
  recordPatFieldAt := fun _ _ => Option.none
  fn_at_offset := fun _ => Option.none
  impl_at_offset := fun _ => Option.none
  fn_ast_at_offset := fun _ => Option.none
  impl_at := fun _ _ => Option.none
  file_text := fun _ => ""

/-! Concrete data for the self-removal scenario
`impl Foo { fn f(&mut self) -> i32 { self.i } }`, renaming `self` to `foo`. -/

/-- The scenario's file. -/
def fileA : FileId := ⟨0⟩

/-- The scenario's source text. -/
def textA : String := "impl Foo { fn f(&mut self) -> i32 { self.i } }"

/-- The `&mut self` parameter node: range 16..25, `&` and `mut` present. -/
def selfParamA : SelfParamNode := ⟨⟨16, 25⟩, true, true⟩

/-- The `self` token of the parameter, at 21..25. -/
def selfTokParamA : SelfKwToken := ⟨⟨21, 25⟩, some selfParamA⟩

/-- The `self` token in the body (`self.i`), at 36..40. -/
def selfTokBodyA : SelfKwToken := ⟨⟨36, 40⟩, Option.none⟩

/-- The scenario's context: the function spans 11..44, the impl block's
target type is the simple path `Foo`, and the tree confirms `self` tokens
at offsets 21 and 36. -/
def ctxA : Ctx :=
  { emptyCtx with
    lex_single_syntax_kind := fun s =>
      if s = "foo" then some (.IDENT, Option.none) else Option.none
    self_kw_at := fun fid o =>
      if fid = fileA ∧ o = 21 then some selfTokParamA
      else if fid = fileA ∧ o = 36 then some selfTokBodyA
      else Option.none
    fn_ast_at_offset := fun p =>
      if p.file_id = fileA then some ⟨11, 44⟩ else Option.none
    impl_at := fun fid o =>
      if fid = fileA ∧ o = 16 then some ⟨some (.pathType (some "Foo"))⟩ else Option.none
    file_text := fun fid => if fid = fileA then textA else "" }

/-- The cursor position on the parameter's `self` token. -/
def posA : FilePosition := ⟨fileA, 21⟩

/-- The text after renaming `self` to `foo`. -/
def textA' : String := "impl Foo { fn f(foo: &mut Foo) -> i32 { foo.i } }"

/-- A punctuation token at 0..1. -/
def tokL : SyntaxToken := ⟨.PUNCT, ⟨0, 1⟩, "("⟩

/-- A punctuation token at 1..2, sharing the boundary offset 1 with `tokL`. -/
def tokR : SyntaxToken := ⟨.PUNCT, ⟨1, 2⟩, ")"⟩

/-- An identifier token at 0..3. -/
def tokIdent : SyntaxToken := ⟨.IDENT, ⟨0, 3⟩, "foo"⟩

/-- A whitespace token at 3..4. -/
def tokWs : SyntaxToken := ⟨.WHITESPACE, ⟨3, 4⟩, " "⟩

/-- A position in `fileA` at offset 0. -/
def pos0 : FilePosition := ⟨fileA, 0⟩

/-- A context whose lexer sees `let` as the `let` keyword. -/
def ctxLet : Ctx :=
  { emptyCtx with
    lex_single_syntax_kind := fun s =>
      if s = "let" then some (.LET_KW, Option.none) else Option.none }

/-- A context whose lexer sees `self` as the `self` keyword. -/
def ctxSelfLex : Ctx :=
  { emptyCtx with
    lex_single_syntax_kind := fun s =>
      if s = "self" then some (.SELF_KW, Option.none) else Option.none }

/-- A position inside the first parameter of `ctxB`'s function. -/
def posB : FilePosition := ⟨fileA, 6⟩

/-- A context for renaming a parameter of type `&mut Foo` to `self` inside
`impl Bar`: the parameter type differs from the impl block's target type. -/
def ctxB : Ctx :=
  { emptyCtx with
    fn_at_offset := fun p =>
      if p = posB then some ⟨some ⟨5, 10⟩, false, some (Ty.ref true (.named "Foo"))⟩
      else Option.none
    impl_at_offset := fun p =>
      if p = posB then some ⟨.named "Bar"⟩ else Option.none }

/-- A record-expression-field reference (the `i` of `Foo { i: bar }`). -/
def refC : Reference := ⟨⟨fileA, ⟨50, 51⟩⟩, .RecordFieldExprOrPat⟩

/-- A context whose tree has a record-expression-field node `i: bar`
spanning 47..53 around `refC`, with field-init expression name `bar`. -/
def ctxC : Ctx :=
  { emptyCtx with
    recordExprFieldAt := fun fid r =>
      if fid = fileA ∧ r = ⟨50, 51⟩ then some ⟨some "bar", ⟨47, 53⟩⟩ else Option.none }

/-- The position of `ctxM`'s module reference. -/
def posM : FilePosition := ⟨⟨1⟩, 4⟩

/-- A plain usage reference of the module at `posM`. -/
def refM : Reference := ⟨⟨⟨1⟩, ⟨4, 7⟩⟩, .Plain⟩

/-- A file-backed module (not `mod.rs`-style) with a `mod name;`
declaration site at 4..7 of file 1. -/
def modM : ModuleModel := ⟨.sourceFile, fileA, false, some (⟨1⟩, ⟨4, 7⟩)⟩

/-- A context in which the reference search at `posM` finds `refM`. -/
def ctxM : Ctx :=
  { emptyCtx with
    find_all_refs := fun p =>
      if p = posM then some ⟨⟨4, 7⟩, ⟨refM, []⟩⟩ else Option.none }

/-- A context in which the reference search finds a lifetime declaration. -/
def ctxL : Ctx :=
  { emptyCtx with
    find_all_refs := fun p =>
      if p = pos0 then some ⟨⟨2, 4⟩, ⟨⟨⟨fileA, ⟨2, 4⟩⟩, .Lifetime⟩, []⟩⟩
      else Option.none }

/-- Two plain references of one definition, at 0..1 and 5..6 of `fileA`. -/
def refsD : ReferenceSearchResult :=
  ⟨⟨⟨fileA, ⟨0, 1⟩⟩, .Plain⟩, [⟨⟨fileA, ⟨5, 6⟩⟩, .Plain⟩]⟩

/-- A context in which the reference search at `pos0` finds `refsD`. -/
def ctxD : Ctx :=
  { emptyCtx with
    find_all_refs := fun p =>
      if p = pos0 then some ⟨⟨0, 1⟩, refsD⟩ else Option.none }

end RA

namespace RA

/-! ## Theorems -/

theorem string_append_assoc (a b c : String) : a ++ b ++ c = a ++ (b ++ c) :=
  String.append_assoc a b c

/-- C1, counterexample: at a boundary between two candidates of equal
priority (two punctuation tokens, priority 1 each) the Token Locator does
NOT keep the first candidate encountered; it returns the second. -/
theorem C1_tie_keeps_first_counterexample :
    priority tokL = priority tokR ∧ tokL ≠ tokR ∧
    pick_best (TokenAtOffset.between tokL tokR) = some tokR ∧
    pick_best (TokenAtOffset.between tokL tokR) ≠ some tokL := by
  refine ⟨rfl, by decide, rfl, by decide⟩

/-- C1 (amended): for every offset whose candidate token set is non-empty the
Token Locator selects a token of maximal priority, with identifiers, integer
literals, lifetime identifiers and the `self` keyword at priority 2, trivia at
priority 0 and every other token at priority 1; when two candidates at a
boundary have equal priority the LAST candidate encountered (the right-hand
token) is kept; the locator reports none exactly when the candidate set is
empty. -/
theorem C1_pick_best_amended :
    (∀ tokens : TokenAtOffset, pick_best tokens = Option.none ↔ tokens = .none)
    ∧ (∀ t, pick_best (.single t) = some t)
    ∧ (∀ l r, pick_best (.between l r) =
        some (if priority r < priority l then l else r))
    ∧ (∀ tokens t, pick_best tokens = some t →
        t ∈ tokens.toList ∧ ∀ u ∈ tokens.toList, priority u ≤ priority t)
    ∧ (∀ t : SyntaxToken, t.kind = .IDENT ∨ t.kind = .INT_NUMBER ∨
        t.kind = .LIFETIME_IDENT ∨ t.kind = .SELF_KW → priority t = 2)
    ∧ (∀ t : SyntaxToken, t.kind.is_trivia = true → priority t = 0)
    ∧ (∀ t : SyntaxToken, t.kind.is_trivia = false → t.kind ≠ .IDENT →
        t.kind ≠ .INT_NUMBER → t.kind ≠ .LIFETIME_IDENT → t.kind ≠ .SELF_KW →
        priority t = 1) := by
  refine ⟨?_, ?_, ?_, ?_, ?_, ?_, ?_⟩
  · intro tokens
    cases tokens <;> simp [pick_best, TokenAtOffset.toList, maxByKeyLast]
  · intro t
    rfl
  · intro l r
    rfl
  · intro tokens t h
    cases tokens with
    | none => simp [pick_best, TokenAtOffset.toList, maxByKeyLast] at h
    | single u =>
      simp only [pick_best, TokenAtOffset.toList, maxByKeyLast, List.foldl,
        Option.some.injEq] at h
      subst h
      simp [TokenAtOffset.toList]
    | between l r =>
      simp only [pick_best, TokenAtOffset.toList, maxByKeyLast, List.foldl,
        Option.some.injEq] at h
      by_cases hc : priority r < priority l
      · rw [if_pos hc] at h
        subst h
        constructor
        · simp [TokenAtOffset.toList]
        · intro u hu
          rcases List.mem_pair.mp hu with h1 | h1 <;> subst h1 <;> omega
      · rw [if_neg hc] at h
        subst h
        constructor
        · simp [TokenAtOffset.toList]
        · intro u hu
          rcases List.mem_pair.mp hu with h1 | h1 <;> subst h1 <;> omega
  · intro t h
    obtain ⟨k, r, s⟩ := t
    rcases h with h | h | h | h <;> simp_all [priority]
  · intro t h
    obtain ⟨k, r, s⟩ := t
    cases k <;> simp_all [priority, SyntaxKind.is_trivia]
  · intro t h h1 h2 h3 h4
    obtain ⟨k, r, s⟩ := t
    cases k <;> simp_all [priority, SyntaxKind.is_trivia]

/-- C1 (amended), witness: concrete instances of the amended statement at
the identifier/whitespace boundary and at the punctuation boundary. -/
theorem C1_pick_best_amended_witness :
    pick_best (.between tokIdent tokWs) = some tokIdent ∧
    priority tokWs = 0 ∧ priority tokIdent = 2 ∧ priority tokL = 1 := by
  have h := C1_pick_best_amended
  refine ⟨?_, ?_, ?_, ?_⟩
  · rw [h.2.2.1 tokIdent tokWs]
    decide
  · exact h.2.2.2.2.2.1 tokWs rfl
  · exact h.2.2.2.2.1 tokIdent (Or.inl rfl)
  · exact h.2.2.2.2.2.2 tokL (by decide) (by decide) (by decide) (by decide) (by decide)

/-- C10: whenever `goto_definition` returns a result, the highlighted range
is the text range of the token picked at the requested offset in the
original (unexpanded) file — it never comes from the descended
(macro-expanded) token, whatever the macro descent does. -/
theorem C10_goto_definition_range_is_original_token :
    (∀ ctx : GotoCtx, ∀ offset rng navs,
      goto_definition ctx offset = some ⟨rng, navs⟩ →
      ∃ t, pick_best (ctx.tokens_at offset) = some t ∧ rng = t.range)
    ∧ (∀ ctx : GotoCtx, ∀ d1 d2 : SyntaxToken → SyntaxToken, ∀ offset r1 n1 r2 n2,
      goto_definition { ctx with descend_into_macros := d1 } offset = some ⟨r1, n1⟩ →
      goto_definition { ctx with descend_into_macros := d2 } offset = some ⟨r2, n2⟩ →
      r1 = r2) := by
  have hmain : ∀ ctx : GotoCtx, ∀ offset rng navs,
      goto_definition ctx offset = some ⟨rng, navs⟩ →
      ∃ t, pick_best (ctx.tokens_at offset) = some t ∧ rng = t.range := by
    intro ctx offset rng navs h
    unfold goto_definition at h
    rcases hp : pick_best (ctx.tokens_at offset) with _ | t
    · rw [hp] at h
      simp at h
    · rw [hp, Option.some_bind] at h
      rcases hn : ctx.nav_targets_for (ctx.descend_into_macros t) with _ | navs'
      · simp only [hn, Option.map_none'] at h
        simp at h
      · simp only [hn, Option.map_some', Option.some.injEq, RangeInfo.mk.injEq] at h
        exact ⟨t, rfl, h.1.symm⟩
  refine ⟨hmain, ?_⟩
  intro ctx d1 d2 offset r1 n1 r2 n2 h1 h2
  obtain ⟨t1, hp1, hr1⟩ := hmain _ offset r1 n1 h1
  obtain ⟨t2, hp2, hr2⟩ := hmain _ offset r2 n2 h2
  rw [show ({ ctx with descend_into_macros := d1 } : GotoCtx).tokens_at =
    ctx.tokens_at from rfl] at hp1
  rw [show ({ ctx with descend_into_macros := d2 } : GotoCtx).tokens_at =
    ctx.tokens_at from rfl] at hp2
  rw [hp1] at hp2
  have ht : t1 = t2 := by
    exact Option.some.inj hp2
  rw [hr1, hr2, ht]

/-- C10, witness: a concrete snapshot with an identifier token at the
offset; the returned range is the token's range. -/
theorem C10_goto_definition_range_witness :
    ∃ t, pick_best ((⟨fun _ => .single tokIdent, id, fun _ => some []⟩ :
        GotoCtx).tokens_at 1) = some t ∧ tokIdent.range = t.range := by
  exact C10_goto_definition_range_is_original_token.1
    ⟨fun _ => .single tokIdent, id, fun _ => some []⟩ 1 tokIdent.range [] rfl

/-- C2: the rename entry point lexes the proposed new name before any
reference search or resolution work (for a rejected name the outcome below
is the same for every snapshot), lets through exactly one identifier, an
underscore, the `self` keyword, or a lifetime identifier other than
`'static` and `'_`, and fails on every other lexical result with a
RenameError whose message begins with "Invalid name" and names the
offending value. -/
theorem C2_rename_lexes_new_name_first (ctx : Ctx) (position : FilePosition)
    (new_name : String) :
    (lexGateAllowed (ctx.lex_single_syntax_kind new_name) new_name = false →
      ∃ rest, rename_with_semantics ctx position new_name =
        .error ("Invalid name `" ++ new_name ++ rest))
    ∧ (∀ e, ctx.lex_single_syntax_kind new_name = some (.IDENT, e) →
        rename_with_semantics ctx position new_name =
          rename_after_lex ctx position new_name false)
    ∧ (∀ e, ctx.lex_single_syntax_kind new_name = some (.UNDERSCORE, e) →
        rename_with_semantics ctx position new_name =
          rename_after_lex ctx position new_name false)
    ∧ (∀ e, ctx.lex_single_syntax_kind new_name = some (.SELF_KW, e) →
        rename_with_semantics ctx position new_name = rename_to_self ctx position)
    ∧ (∀ e, ctx.lex_single_syntax_kind new_name = some (.LIFETIME_IDENT, e) →
        new_name ≠ "'static" → new_name ≠ "'_" →
        rename_with_semantics ctx position new_name =
          rename_after_lex ctx position new_name true) := by
  refine ⟨?_, ?_, ?_, ?_, ?_⟩
  · intro hgate
    rcases hres : ctx.lex_single_syntax_kind new_name with _ | ⟨k, e⟩
    · exact ⟨"`: not an identifier", by unfold rename_with_semantics; rw [hres]⟩
    · rw [hres] at hgate
      cases k
      case IDENT => simp [lexGateAllowed] at hgate
      case UNDERSCORE => simp [lexGateAllowed] at hgate
      case SELF_KW => simp [lexGateAllowed] at hgate
      case LIFETIME_IDENT =>
        simp only [lexGateAllowed, decide_eq_false_iff_not] at hgate
        refine ⟨"`: Cannot rename lifetime to " ++ new_name, ?_⟩
        unfold rename_with_semantics
        rw [hres]
        cases e <;>
          · show (if new_name ≠ "'static" ∧ new_name ≠ "'_" then
                rename_after_lex ctx position new_name true
              else
                Except.error ("Invalid name `" ++ new_name ++
                  "`: Cannot rename lifetime to " ++ new_name)) = _
            rw [if_neg hgate, string_append_assoc]
      all_goals
        rcases e with _ | err
        · exact ⟨"`: not an identifier", by unfold rename_with_semantics; rw [hres]⟩
        · refine ⟨"`: " ++ err, ?_⟩
          unfold rename_with_semantics
          rw [hres]
          show Except.error ("Invalid name `" ++ new_name ++ "`: " ++ err) =
            Except.error ("Invalid name `" ++ new_name ++ ("`: " ++ err))
          rw [string_append_assoc]
  · intro e hres
    unfold rename_with_semantics
    rw [hres]
    cases e <;> rfl
  · intro e hres
    unfold rename_with_semantics
    rw [hres]
    cases e <;> rfl
  · intro e hres
    unfold rename_with_semantics
    rw [hres]
    cases e <;> rfl
  · intro e hres hs hu
    unfold rename_with_semantics
    rw [hres]
    cases e <;>
      · show (if new_name ≠ "'static" ∧ new_name ≠ "'_" then
            rename_after_lex ctx position new_name true
          else
            Except.error ("Invalid name `" ++ new_name ++
              "`: Cannot rename lifetime to " ++ new_name)) = _
        rw [if_pos ⟨hs, hu⟩]

/-- C2, witness: renaming to the keyword `let` fails with an
"Invalid name `let`" error whatever stands at the cursor. -/
theorem C2_rename_lexes_new_name_first_witness :
    ∃ rest, rename_with_semantics ctxLet pos0 "let" =
      .error ("Invalid name `" ++ "let" ++ rest) := by
  exact (C2_rename_lexes_new_name_first ctxLet pos0 "let").1 rfl

/-- C4: whenever the new name lexes as the `self` keyword, the
self-introduction strategy runs regardless of what is at the cursor; the
replacement self form is plain `self` with the parameter type taken as-is
when the impl target type is itself a reference, otherwise a reference is
stripped from the parameter type and the form is `&mut self` or `&self`
according to the parameter reference's mutability (plain `self` when the
parameter type is not a reference); and when the resulting type differs
from the impl target type the rename fails with "Parameter type differs
from impl block type". -/
theorem C4_rename_to_self_strategy :
    (∀ (ctx : Ctx) (position : FilePosition) (new_name : String) (e : Option String),
      ctx.lex_single_syntax_kind new_name = some (.SELF_KW, e) →
      rename_with_semantics ctx position new_name = rename_to_self ctx position)
    ∧ (∀ fpt ity : Ty, (ity.remove_ref).isSome = true →
        computeSelfTyForm fpt ity = (fpt, "self"))
    ∧ (∀ (fpt ity t : Ty) (m : Bool), ity.remove_ref = Option.none → fpt = Ty.ref m t →
        computeSelfTyForm fpt ity = (t, if m then "&mut self" else "&self"))
    ∧ (∀ fpt ity : Ty, ity.remove_ref = Option.none → fpt.remove_ref = Option.none →
        computeSelfTyForm fpt ity = (fpt, "self"))
    ∧ (∀ (ctx : Ctx) (position : FilePosition) (fnm : FnModel) (pr : TextRange)
        (im : ImplModel) (fpt : Ty),
        ctx.fn_at_offset position = some fnm →
        fnm.param_range = some pr →
        pr.contains position.offset = true →
        ctx.impl_at_offset position = some im →
        fnm.has_self_param = false →
        fnm.first_param_ty = some fpt →
        (computeSelfTyForm fpt im.target_ty).1 ≠ im.target_ty →
        rename_to_self ctx position =
          .error "Parameter type differs from impl block type") := by
  refine ⟨?_, ?_, ?_, ?_, ?_⟩
  · intro ctx position new_name e hres
    unfold rename_with_semantics
    rw [hres]
    cases e <;> rfl
  · intro fpt ity h
    cases ity with
    | named n => simp [Ty.remove_ref] at h
    | ref m t => simp [computeSelfTyForm, Ty.remove_ref]
  · intro fpt ity t m h1 h2
    subst h2
    cases ity with
    | named n => simp [computeSelfTyForm, Ty.remove_ref, Ty.is_mutable_reference]
    | ref m' t' => simp [Ty.remove_ref] at h1
  · intro fpt ity h1 h2
    cases ity with
    | named n =>
      cases fpt with
      | named n' => simp [computeSelfTyForm, Ty.remove_ref]
      | ref m t => simp [Ty.remove_ref] at h2
    | ref m t => simp [Ty.remove_ref] at h1
  · intro ctx position fnm pr im fpt h1 h2 h3 h4 h5 h6 h7
    unfold rename_to_self
    simp only [h1, h2, h3, h4, h5, h6]
    rw [if_neg (by simp), if_pos h7]
    simp

/-- C4, witness: renaming the first parameter (of type `&mut Foo`) of a
method inside `impl Bar` to `self` fails with the type-mismatch error, and
renaming to `self` always dispatches to the self-introduction strategy. -/
theorem C4_rename_to_self_strategy_witness :
    rename_to_self ctxB posB = .error "Parameter type differs from impl block type"
    ∧ rename_with_semantics ctxSelfLex pos0 "self" = rename_to_self ctxSelfLex pos0 := by
  constructor
  · exact C4_rename_to_self_strategy.2.2.2.2 ctxB posB
      ⟨some ⟨5, 10⟩, false, some (Ty.ref true (.named "Foo"))⟩ ⟨5, 10⟩
      ⟨.named "Bar"⟩ (Ty.ref true (.named "Foo")) rfl rfl (by decide) rfl rfl rfl
      (by decide)
  · exact C4_rename_to_self_strategy.1 ctxSelfLex pos0 "self" Option.none rfl

/-- C7: a generic rename whose declaration is a lifetime but whose new name
is not lexically a lifetime identifier fails with "Invalid name `..`: not a
lifetime identifier"; the symmetric mismatch fails with "Invalid name `..`:
not an identifier"; no edits are produced in either case; and the lexical
category of the new name is what the entry point passes to the generic
rename. -/
theorem C7_lifetime_category_mismatch :
    (∀ (ctx : Ctx) (position : FilePosition) (new_name : String)
        (rng : TextRange) (refs : ReferenceSearchResult),
      ctx.find_all_refs position = some ⟨rng, refs⟩ →
      refs.declaration.kind = .Lifetime →
      rename_reference ctx position new_name false =
        .error ("Invalid name `" ++ new_name ++ "`: not a lifetime identifier"))
    ∧ (∀ (ctx : Ctx) (position : FilePosition) (new_name : String)
        (rng : TextRange) (refs : ReferenceSearchResult),
      ctx.find_all_refs position = some ⟨rng, refs⟩ →
      refs.declaration.kind ≠ .Lifetime →
      rename_reference ctx position new_name true =
        .error ("Invalid name `" ++ new_name ++ "`: not an identifier"))
    ∧ (∀ (ctx : Ctx) (position : FilePosition) (new_name : String) (e : Option String),
      ctx.lex_single_syntax_kind new_name = some (.LIFETIME_IDENT, e) →
      new_name ≠ "'static" → new_name ≠ "'_" →
      rename_with_semantics ctx position new_name =
        rename_reference ctx position new_name true)
    ∧ (∀ (ctx : Ctx) (position : FilePosition) (new_name : String) (e : Option String),
      ctx.lex_single_syntax_kind new_name = some (.IDENT, e) →
      ctx.find_module_at_offset position = Option.none →
      ctx.self_kw_at position.file_id position.offset = Option.none →
      rename_with_semantics ctx position new_name =
        rename_reference ctx position new_name false) := by
  refine ⟨?_, ?_, ?_, ?_⟩
  · intro ctx position new_name rng refs hfar hkind
    unfold rename_reference
    simp [hfar, hkind]
  · intro ctx position new_name rng refs hfar hkind
    unfold rename_reference
    simp only [hfar]
    rw [decide_eq_false hkind]
  · intro ctx position new_name e hres hs hu
    unfold rename_with_semantics
    rw [hres]
    cases e <;>
      · show (if new_name ≠ "'static" ∧ new_name ≠ "'_" then
            rename_after_lex ctx position new_name true
          else
            Except.error ("Invalid name `" ++ new_name ++
              "`: Cannot rename lifetime to " ++ new_name)) = _
        rw [if_pos ⟨hs, hu⟩]
        rfl
  · intro ctx position new_name e hres hmod hself
    unfold rename_with_semantics
    rw [hres]
    cases e <;>
      · show rename_after_lex ctx position new_name false = _
        unfold rename_after_lex
        simp only [hmod, hself, Bool.false_eq_true, if_false]

/-- C7, witness: renaming a lifetime declaration to the identifier `foo`
fails with the "not a lifetime identifier" error, and renaming a
non-lifetime declaration with the lifetime flag set fails with the
"not an identifier" error. -/
theorem C7_lifetime_category_mismatch_witness :
    rename_reference ctxL pos0 "foo" false =
      .error ("Invalid name `" ++ "foo" ++ "`: not a lifetime identifier")
    ∧ rename_reference ctxD pos0 "'a" true =
      .error ("Invalid name `" ++ "'a" ++ "`: not an identifier") := by
  constructor
  · exact C7_lifetime_category_mismatch.1 ctxL pos0 "foo" ⟨2, 4⟩
      ⟨⟨⟨fileA, ⟨2, 4⟩⟩, .Lifetime⟩, []⟩ rfl rfl
  · exact C7_lifetime_category_mismatch.2.1 ctxD pos0 "'a" ⟨0, 1⟩ refsD rfl
      (by decide)

/-- C9: `prepare_rename` never sees a proposed new name: at a module
position or a `self`-token position it runs the corresponding full rename
strategy with the fixed placeholder "dummy" and keeps only its range
(discarding every computed edit), at every other position it runs only the
reference search, and on an empty reference search it fails with
"No references found at position". -/
theorem C9_prepare_rename_uses_dummy :
    (∀ (ctx : Ctx) (position : FilePosition) (m : ModuleModel),
      ctx.find_module_at_offset position = some m →
      prepare_rename ctx position =
        (rename_mod ctx position m "dummy").map fun i => ⟨i.range, ()⟩)
    ∧ (∀ (ctx : Ctx) (position : FilePosition) (st : SelfKwToken),
      ctx.find_module_at_offset position = Option.none →
      ctx.self_kw_at position.file_id position.offset = some st →
      prepare_rename ctx position =
        (rename_self_to_param ctx position st "dummy").map fun i => ⟨i.range, ()⟩)
    ∧ (∀ (ctx : Ctx) (position : FilePosition),
      ctx.find_module_at_offset position = Option.none →
      ctx.self_kw_at position.file_id position.offset = Option.none →
      ((ctx.find_all_refs position = Option.none →
        prepare_rename ctx position = .error "No references found at position")
      ∧ (∀ (rng : TextRange) (refs : ReferenceSearchResult),
        ctx.find_all_refs position = some ⟨rng, refs⟩ →
        prepare_rename ctx position = .ok ⟨rng, ()⟩))) := by
  refine ⟨?_, ?_, ?_⟩
  · intro ctx position m hmod
    unfold prepare_rename
    simp only [hmod]
  · intro ctx position st hmod hself
    unfold prepare_rename
    simp only [hmod, hself]
  · intro ctx position hmod hself
    constructor
    · intro hfar
      unfold prepare_rename
      simp only [hmod, hself, hfar]
      rfl
    · intro rng refs hfar
      unfold prepare_rename
      simp only [hmod, hself, hfar]
      rfl

/-- C9, witness: with nothing at the position, `prepare_rename` fails with
"No references found at position". -/
theorem C9_prepare_rename_uses_dummy_witness :
    prepare_rename emptyCtx pos0 = .error "No references found at position" := by
  exact (C9_prepare_rename_uses_dummy.2.2 emptyCtx pos0 rfl rfl).1 rfl

/-- C5: the Edit Synthesizer's edit is determined by the reference's kind:
Plain and Lifetime replace the reference's own range with the new name;
FieldShorthandForField inserts `<new_name>: ` at the start of the range;
FieldShorthandForLocal inserts `: <new_name>` at the end of the range;
RecordFieldExprOrPat replaces the whole enclosing record-expression-field
or record-pattern-field node's range exactly when the node's other half
(the field-init expression's name, or the pattern's identifier) equals the
new name, and otherwise replaces only the original sub-range. -/
theorem C5_edit_synthesizer_by_kind (ctx : Ctx) (reference : Reference)
    (new_name : String) :
    (reference.kind = .Plain →
      source_edit_from_reference ctx reference new_name =
        ⟨reference.file_range.file_id, ⟨reference.file_range.range, new_name⟩⟩)
    ∧ (reference.kind = .Lifetime →
      source_edit_from_reference ctx reference new_name =
        ⟨reference.file_range.file_id, ⟨reference.file_range.range, new_name⟩⟩)
    ∧ (reference.kind = .FieldShorthandForField →
      source_edit_from_reference ctx reference new_name =
        ⟨reference.file_range.file_id,
          ⟨⟨reference.file_range.range.start, reference.file_range.range.start⟩,
            new_name ++ ": "⟩⟩)
    ∧ (reference.kind = .FieldShorthandForLocal →
      source_edit_from_reference ctx reference new_name =
        ⟨reference.file_range.file_id,
          ⟨⟨reference.file_range.range.stop, reference.file_range.range.stop⟩,
            ": " ++ new_name⟩⟩)
    ∧ (reference.kind = .RecordFieldExprOrPat →
      ((source_edit_from_reference ctx reference new_name).file_id =
          reference.file_range.file_id
      ∧ (source_edit_from_reference ctx reference new_name).edit.insert = new_name
      ∧ (∀ f, ctx.recordExprFieldAt reference.file_range.file_id
            reference.file_range.range = some f →
          ctx.recordPatFieldAt reference.file_range.file_id
            reference.file_range.range = Option.none →
          (source_edit_from_reference ctx reference new_name).edit.delete =
            if f.exprNameRefText = some new_name then f.nodeRange
            else reference.file_range.range)
      ∧ (∀ p, ctx.recordPatFieldAt reference.file_range.file_id
            reference.file_range.range = some p →
          ctx.recordExprFieldAt reference.file_range.file_id
            reference.file_range.range = Option.none →
          (source_edit_from_reference ctx reference new_name).edit.delete =
            if p.pat = some (.identPat (some new_name)) then p.nodeRange
            else reference.file_range.range)
      ∧ (ctx.recordExprFieldAt reference.file_range.file_id
            reference.file_range.range = Option.none →
          ctx.recordPatFieldAt reference.file_range.file_id
            reference.file_range.range = Option.none →
          (source_edit_from_reference ctx reference new_name).edit.delete =
            reference.file_range.range))) := by
  refine ⟨?_, ?_, ?_, ?_, ?_⟩
  · intro hk
    unfold source_edit_from_reference
    rw [hk]
  · intro hk
    unfold source_edit_from_reference
    rw [hk]
  · intro hk
    unfold source_edit_from_reference
    rw [hk]
  · intro hk
    unfold source_edit_from_reference
    rw [hk]
  · intro hk
    have hedit : source_edit_from_reference ctx reference new_name =
        ⟨reference.file_range.file_id,
          ⟨edit_text_range_for_record_field_expr_or_pat ctx reference.file_range new_name,
            new_name⟩⟩ := by
      unfold source_edit_from_reference
      rw [hk]
    refine ⟨by rw [hedit], by rw [hedit], ?_, ?_, ?_⟩
    · intro f hf hp
      rw [hedit]
      unfold edit_text_range_for_record_field_expr_or_pat
      simp only [hf, hp, Option.some_bind, Option.none_bind]
      rcases hmt : f.exprNameRefText with _ | name
      · simp
      · by_cases hnm : name = new_name
        · subst hnm
          simp
        · simp [hnm, Option.orElse]
    · intro p hp hf
      rw [hedit]
      unfold edit_text_range_for_record_field_expr_or_pat
      simp only [hf, hp, Option.some_bind, Option.none_bind]
      rcases hmt : p.pat with _ | pn
      · simp [Option.orElse]
      · cases pn with
        | otherPat => simp [Option.orElse]
        | identPat n =>
          rcases n with _ | name
          · simp [Option.orElse]
          · by_cases hnm : name = new_name
            · subst hnm
              simp [Option.orElse]
            · simp [hnm, Option.orElse]
    · intro hf hp
      rw [hedit]
      unfold edit_text_range_for_record_field_expr_or_pat
      simp [hf, hp, Option.orElse]

/-- C5, witness: a record-expression-field reference whose field-init
expression already spells the new name collapses to the whole node's
range; a plain reference replaces its own range. -/
theorem C5_edit_synthesizer_by_kind_witness :
    source_edit_from_reference ctxC refC "bar" =
      ⟨fileA, ⟨(⟨47, 53⟩ : TextRange), "bar"⟩⟩
    ∧ source_edit_from_reference ctxC refsD.declaration "j" =
      ⟨fileA, ⟨(⟨0, 1⟩ : TextRange), "j"⟩⟩ := by
  constructor
  · obtain ⟨h1, h2, h3, -, -⟩ := (C5_edit_synthesizer_by_kind ctxC refC "bar").2.2.2.2 rfl
    have hd := h3 ⟨some "bar", ⟨47, 53⟩⟩ rfl rfl
    have hsplit : source_edit_from_reference ctxC refC "bar" =
        ⟨(source_edit_from_reference ctxC refC "bar").file_id,
          ⟨(source_edit_from_reference ctxC refC "bar").edit.delete,
            (source_edit_from_reference ctxC refC "bar").edit.insert⟩⟩ := rfl
    rw [hsplit, h1, h2, hd, if_pos rfl]
    rfl
  · exact (C5_edit_synthesizer_by_kind ctxC refsD.declaration "j").1 rfl

/-- C6: renaming a file-backed module queues exactly one file-move edit
whose destination path is `<new_name>.rs` normally or `../<new_name>/mod.rs`
for a `mod.rs`-style file (and no move for an inline module); a separate
`mod <name>;` declaration site yields exactly one text edit renaming just
the name token, queued ahead of the usage edits; and the rename fails with
"No references found at position" when the reference search finds nothing. -/
theorem C6_rename_mod_edits (ctx : Ctx) (position : FilePosition)
    (module : ModuleModel) (new_name : String) :
    (ctx.find_all_refs position = Option.none →
      rename_mod ctx position module new_name =
        .error "No references found at position")
    ∧ (∀ (rng : TextRange) (refs : ReferenceSearchResult),
      ctx.find_all_refs position = some ⟨rng, refs⟩ →
      ∃ change, rename_mod ctx position module new_name = .ok ⟨rng, change⟩
        ∧ change.file_system_edits =
          (if module.definition_source_kind = .sourceFile then
            [FileSystemEdit.MoveFile module.definition_file
              ⟨module.definition_file,
                if module.is_mod_rs then "../" ++ new_name ++ "/mod.rs"
                else new_name ++ ".rs"⟩]
          else [])
        ∧ change.source_file_edits =
          (match module.declaration_source with
           | some (fid, nameRange) =>
             [(⟨fid, ⟨nameRange, new_name⟩⟩ : SourceFileEdit)]
           | Option.none => []) ++
          refs.references.map (fun r => source_edit_from_reference ctx r new_name)) := by
  constructor
  · intro hfar
    unfold rename_mod
    simp only [hfar]
  · intro rng refs hfar
    have heq : rename_mod ctx position module new_name =
        .ok ⟨rng, SourceChange.from_edits
          ((match module.declaration_source with
            | some (fid, nameRange) =>
              [(⟨fid, ⟨nameRange, new_name⟩⟩ : SourceFileEdit)]
            | Option.none => []) ++
            refs.references.map (fun r => source_edit_from_reference ctx r new_name))
          (match module.definition_source_kind with
           | .sourceFile =>
             [.MoveFile module.definition_file
               ⟨module.definition_file,
                 if module.is_mod_rs then "../" ++ new_name ++ "/mod.rs"
                 else new_name ++ ".rs"⟩]
           | .inlineModule => [])⟩ := by
      unfold rename_mod
      simp only [hfar]
    refine ⟨_, heq, ?_, rfl⟩
    cases hk : module.definition_source_kind <;>
      simp [SourceChange.from_edits, hk]

/-- C6, witness: renaming the module of `ctxM` to `foo2` queues exactly the
file move to `foo2.rs` and the declaration-site text edit. -/
theorem C6_rename_mod_edits_witness :
    ∃ change, rename_mod ctxM posM modM "foo2" = .ok ⟨⟨4, 7⟩, change⟩
      ∧ change.file_system_edits =
        (if modM.definition_source_kind = .sourceFile then
          [FileSystemEdit.MoveFile modM.definition_file
            ⟨modM.definition_file,
              if modM.is_mod_rs then "../" ++ "foo2" ++ "/mod.rs"
              else "foo2" ++ ".rs"⟩]
        else [])
      ∧ change.source_file_edits =
        (match modM.declaration_source with
         | some (fid, nameRange) =>
           [(⟨fid, ⟨nameRange, "foo2"⟩⟩ : SourceFileEdit)]
         | Option.none => []) ++
        [].map (fun r => source_edit_from_reference ctxM r "foo2") := by
  exact (C6_rename_mod_edits ctxM posM modM "foo2").2 ⟨4, 7⟩ ⟨refM, []⟩ rfl

/-- `text_edit_from_self_param` succeeds exactly when an impl block is
found at the parameter's start whose target type is a simple named path,
and then builds `name: <ownership><TypeName>` over the parameter's range. -/
theorem text_edit_from_self_param_some (ctx : Ctx) (fid : FileId)
    (sp : SelfParamNode) (nn : String) (e : Indel) :
    text_edit_from_self_param ctx fid sp nn = some e ↔
    ∃ impl_def type_name, ctx.impl_at fid sp.range.start = some impl_def ∧
      target_type_name impl_def = some type_name ∧
      e = ⟨sp.range, nn ++ ": " ++ ownershipText sp ++ type_name⟩ := by
  unfold text_edit_from_self_param
  split
  · rename_i hi
    simp [hi]
  · rename_i impl_def hi
    split
    · rename_i htn
      simp only [hi, htn]
      constructor
      · intro h
        cases h
      · rintro ⟨i', t', hi', ht', he⟩
        have h1 : i' = impl_def := (Option.some.inj hi').symm
        subst h1
        rw [htn] at ht'
        cases ht'
    · rename_i tn htn
      constructor
      · intro h
        exact ⟨impl_def, tn, hi, htn, (Option.some.inj h).symm⟩
      · rintro ⟨i', t', hi', ht', he⟩
        rw [hi] at hi'
        have h1 : i' = impl_def := (Option.some.inj hi').symm
        subst h1
        rw [htn] at ht'
        have h2 : t' = tn := (Option.some.inj ht').symm
        subst h2
        rw [he]

/-- Every confirmed in-range `self` occurrence contributes its edit to a
successful `collectSelfEdits` run: the plain replacement for an ordinary
occurrence, the `text_edit_from_self_param` rewrite for the declaration. -/
theorem collectSelfEdits_ok_mem (ctx : Ctx) (fid : FileId) (sr : TextRange)
    (nn : String) (idxs : List Nat) :
    ∀ es : List SourceFileEdit,
    collectSelfEdits ctx fid sr nn idxs = .ok es →
    ∀ idx ∈ idxs, sr.contains_inclusive idx = true →
    ∀ usage, ctx.self_kw_at fid idx = some usage →
    ((usage.parent_self_param = Option.none →
      (⟨fid, ⟨usage.range, nn⟩⟩ : SourceFileEdit) ∈ es)
    ∧ (∀ sp, usage.parent_self_param = some sp →
      ∃ e, text_edit_from_self_param ctx fid sp nn = some e ∧
        (⟨fid, e⟩ : SourceFileEdit) ∈ es)) := by
  induction idxs with
  | nil =>
    intro es h idx hmem
    exact absurd hmem (List.not_mem_nil idx)
  | cons i rest ih =>
    intro es h idx hmem hin usage hu
    rw [collectSelfEdits] at h
    have hstep : ∀ es' : List SourceFileEdit,
        collectSelfEdits ctx fid sr nn rest = .ok es' →
        idx ∈ rest →
        ((usage.parent_self_param = Option.none →
          (⟨fid, ⟨usage.range, nn⟩⟩ : SourceFileEdit) ∈ es')
        ∧ (∀ sp, usage.parent_self_param = some sp →
          ∃ e, text_edit_from_self_param ctx fid sp nn = some e ∧
            (⟨fid, e⟩ : SourceFileEdit) ∈ es')) :=
      fun es' hrec hmem' => ih es' hrec idx hmem' hin usage hu
    split at h
    · rename_i hc
      rcases List.mem_cons.mp hmem with heq | hmem'
      · subst heq
        rw [hin] at hc
        cases hc
      · exact ih es h idx hmem' hin usage hu
    · rename_i hc
      split at h
      · rename_i hu2
        rcases List.mem_cons.mp hmem with heq | hmem'
        · subst heq
          rw [hu2] at hu
          cases hu
        · exact ih es h idx hmem' hin usage hu
      · rename_i u hu2
        split at h
        · rename_i sp hp
          split at h
          · cases h
          · rename_i ed ht
            rcases hrec : collectSelfEdits ctx fid sr nn rest with e' | es'
            · rw [hrec] at h
              simp [Except.map] at h
            · rw [hrec] at h
              simp only [Except.map, Except.ok.injEq] at h
              subst h
              rcases List.mem_cons.mp hmem with heq | hmem'
              · subst heq
                rw [hu2] at hu
                have husage : u = usage := Option.some.inj hu
                subst husage
                constructor
                · intro hpn
                  rw [hp] at hpn
                  cases hpn
                · intro sp' hsp
                  rw [hp] at hsp
                  have hss : sp = sp' := Option.some.inj hsp
                  subst hss
                  exact ⟨ed, ht, List.mem_cons_self _ _⟩
              · have hmm := hstep es' hrec hmem'
                constructor
                · intro hpn
                  exact List.mem_cons_of_mem _ (hmm.1 hpn)
                · intro sp' hsp
                  obtain ⟨e, he, hm⟩ := hmm.2 sp' hsp
                  exact ⟨e, he, List.mem_cons_of_mem _ hm⟩
        · rename_i hp
          rcases hrec : collectSelfEdits ctx fid sr nn rest with e' | es'
          · rw [hrec] at h
            simp [Except.map] at h
          · rw [hrec] at h
            simp only [Except.map, Except.ok.injEq] at h
            subst h
            rcases List.mem_cons.mp hmem with heq | hmem'
            · subst heq
              rw [hu2] at hu
              have husage : u = usage := Option.some.inj hu
              subst husage
              constructor
              · intro hpn
                exact List.mem_cons_self _ _
              · intro sp hsp
                rw [hp] at hsp
                cases hsp
            · have hmm := hstep es' hrec hmem'
              constructor
              · intro hpn
                exact List.mem_cons_of_mem _ (hmm.1 hpn)
              · intro sp hsp
                obtain ⟨e, he, hm⟩ := hmm.2 sp hsp
                exact ⟨e, he, List.mem_cons_of_mem _ hm⟩

/-- When some confirmed in-range `self`-parameter occurrence has no impl
target type, `collectSelfEdits` fails with "No target type found". -/
theorem collectSelfEdits_err_of_fail (ctx : Ctx) (fid : FileId) (sr : TextRange)
    (nn : String) (idxs : List Nat) :
    (∃ idx ∈ idxs, sr.contains_inclusive idx = true ∧
      ∃ usage, ctx.self_kw_at fid idx = some usage ∧
      ∃ sp, usage.parent_self_param = some sp ∧
        text_edit_from_self_param ctx fid sp nn = Option.none) →
    collectSelfEdits ctx fid sr nn idxs = .error "No target type found" := by
  induction idxs with
  | nil =>
    rintro ⟨idx, hmem, -⟩
    exact absurd hmem (List.not_mem_nil idx)
  | cons i rest ih =>
    rintro ⟨idx, hmem, hin, usage, hu, sp, hp, ht⟩
    rw [collectSelfEdits]
    split
    · rename_i hc
      rcases List.mem_cons.mp hmem with heq | hmem'
      · subst heq
        rw [hin] at hc
        cases hc
      · exact ih ⟨idx, hmem', hin, usage, hu, sp, hp, ht⟩
    · rename_i hc
      split
      · rename_i hu2
        rcases List.mem_cons.mp hmem with heq | hmem'
        · subst heq
          rw [hu2] at hu
          cases hu
        · exact ih ⟨idx, hmem', hin, usage, hu, sp, hp, ht⟩
      · rename_i u hu2
        split
        · rename_i sp2 hp2
          split
          · rfl
          · rename_i ed ht2
            rcases List.mem_cons.mp hmem with heq | hmem'
            · subst heq
              rw [hu2] at hu
              have husage : u = usage := Option.some.inj hu
              subst husage
              rw [hp2] at hp
              have hss : sp2 = sp := Option.some.inj hp
              subst hss
              rw [ht2] at ht
              cases ht
            · rw [ih ⟨idx, hmem', hin, usage, hu, sp, hp, ht⟩]
              rfl
        · rename_i hp2
          rcases List.mem_cons.mp hmem with heq | hmem'
          · subst heq
            rw [hu2] at hu
            have husage : u = usage := Option.some.inj hu
            subst husage
            rw [hp2] at hp
            cases hp
          · rw [ih ⟨idx, hmem', hin, usage, hu, sp, hp, ht⟩]
            rfl

/-- `rename_self_to_param` once the enclosing function is found: the scan
either fails or yields the edits, with the returned range taken from the
`self` token's parent self-parameter node when there is one. -/
theorem rename_self_to_param_ok_eq (ctx : Ctx) (position : FilePosition)
    (st : SelfKwToken) (nn : String) (sr : TextRange)
    (hsr : ctx.fn_ast_at_offset position = some sr) :
    rename_self_to_param ctx position st nn =
      match collectSelfEdits ctx position.file_id sr nn
          (matchIndices (ctx.file_text position.file_id) "self") with
      | .error e => .error e
      | .ok edits =>
        .ok ⟨(match st.parent_self_param with
              | some p => p.range
              | Option.none => st.range), SourceChange.fromFileEdits edits⟩ := by
  unfold rename_self_to_param
  rw [hsr]

/-- C3: when self-removal succeeds, every occurrence inside the enclosing
function's range that the tree confirms to be a `self` token is rewritten —
the self-parameter declaration to `<new_name>: <OwnershipPrefix><TypeName>`
(ownership text matching the parameter's `&`/`mut` tokens, TypeName the
simple path name of the enclosing impl's target type), every other
occurrence to the new name verbatim; a confirmed declaration occurrence
whose impl target type cannot be resolved to a simple named path fails the
rename with "No target type found"; and renaming `self` to `foo` on
`fn f(&mut self) -> i32 { self.i }` inside `impl Foo` yields
`fn f(foo: &mut Foo) -> i32 { foo.i }`. -/
theorem C3_self_removal_rewrites :
    (∀ (ctx : Ctx) (position : FilePosition) (st : SelfKwToken) (new_name : String)
        (rng : TextRange) (change : SourceChange) (sr : TextRange) (idx : Nat)
        (usage : SelfKwToken),
      rename_self_to_param ctx position st new_name = .ok ⟨rng, change⟩ →
      ctx.fn_ast_at_offset position = some sr →
      idx ∈ matchIndices (ctx.file_text position.file_id) "self" →
      sr.contains_inclusive idx = true →
      ctx.self_kw_at position.file_id idx = some usage →
      ((usage.parent_self_param = Option.none →
        (⟨position.file_id, ⟨usage.range, new_name⟩⟩ : SourceFileEdit)
          ∈ change.source_file_edits)
      ∧ (∀ sp, usage.parent_self_param = some sp →
        ∃ impl_def type_name,
          ctx.impl_at position.file_id sp.range.start = some impl_def ∧
          target_type_name impl_def = some type_name ∧
          (⟨position.file_id,
            ⟨sp.range, new_name ++ ": " ++ ownershipText sp ++ type_name⟩⟩ :
              SourceFileEdit) ∈ change.source_file_edits)))
    ∧ (∀ (ctx : Ctx) (position : FilePosition) (st : SelfKwToken) (new_name : String)
        (sr : TextRange) (idx : Nat) (usage : SelfKwToken) (sp : SelfParamNode),
      ctx.fn_ast_at_offset position = some sr →
      idx ∈ matchIndices (ctx.file_text position.file_id) "self" →
      sr.contains_inclusive idx = true →
      ctx.self_kw_at position.file_id idx = some usage →
      usage.parent_self_param = some sp →
      text_edit_from_self_param ctx position.file_id sp new_name = Option.none →
      rename_self_to_param ctx position st new_name =
        .error "No target type found")
    ∧ (∀ (ctx : Ctx) (fid : FileId) (sp : SelfParamNode) (nn : String),
      text_edit_from_self_param ctx fid sp nn = Option.none ↔
        (ctx.impl_at fid sp.range.start = Option.none ∨
         ∃ impl_def, ctx.impl_at fid sp.range.start = some impl_def ∧
           target_type_name impl_def = Option.none))
    ∧ (∃ ri, rename_self_to_param ctxA posA selfTokParamA "foo" = .ok ri ∧
        ri.range = selfParamA.range ∧
        applyFileEdits ri.info.source_file_edits textA = textA'.toList) := by
  refine ⟨?_, ?_, ?_, ?_⟩
  · intro ctx position st new_name rng change sr idx usage hok hsr hmem hin hu
    rw [rename_self_to_param_ok_eq ctx position st new_name sr hsr] at hok
    rcases hcol : collectSelfEdits ctx position.file_id sr new_name
        (matchIndices (ctx.file_text position.file_id) "self") with e | es
    · rw [hcol] at hok
      simp at hok
    · rw [hcol] at hok
      have hok2 : (Except.ok (⟨(match st.parent_self_param with
          | some p => p.range
          | Option.none => st.range), SourceChange.fromFileEdits es⟩ :
          RangeInfo SourceChange) : Except RenameError (RangeInfo SourceChange)) =
          .ok ⟨rng, change⟩ := hok
      have hch : change = SourceChange.fromFileEdits es :=
        (congrArg RangeInfo.info (Except.ok.inj hok2)).symm
      have hmm := collectSelfEdits_ok_mem ctx position.file_id sr new_name _ es
        hcol idx hmem hin usage hu
      constructor
      · intro hpn
        rw [hch]
        exact hmm.1 hpn
      · intro sp hsp
        obtain ⟨e, he, hm⟩ := hmm.2 sp hsp
        obtain ⟨impl_def, type_name, hi, htn, hee⟩ :=
          (text_edit_from_self_param_some ctx position.file_id sp new_name e).mp he
        refine ⟨impl_def, type_name, hi, htn, ?_⟩
        rw [hch]
        rw [← hee]
        exact hm
  · intro ctx position st new_name sr idx usage sp hsr hmem hin hu hp ht
    have herr := collectSelfEdits_err_of_fail ctx position.file_id sr new_name _
      ⟨idx, hmem, hin, usage, hu, sp, hp, ht⟩
    rw [rename_self_to_param_ok_eq ctx position st new_name sr hsr, herr]
  · intro ctx fid sp nn
    unfold text_edit_from_self_param
    rcases hi : ctx.impl_at fid sp.range.start with _ | impl_def
    · simp
    · rcases htn : target_type_name impl_def with _ | tn
      · simp [htn]
      · simp [htn]
  · refine ⟨⟨⟨16, 25⟩, SourceChange.fromFileEdits
      [⟨fileA, ⟨⟨16, 25⟩, "foo: &mut Foo"⟩⟩, ⟨fileA, ⟨⟨36, 40⟩, "foo"⟩⟩]⟩,
      ?_, rfl, ?_⟩
    · rfl
    · rfl

theorem TextRange.subrange_refl (a : TextRange) : a.subrange a :=
  ⟨Nat.le_refl _, Nat.le_refl _⟩

theorem TextRange.disjoint_symm {a b : TextRange} (h : a.disjoint b) : b.disjoint a :=
  h.elim Or.inr Or.inl

/-- Ranges inside disjoint spans are disjoint. -/
theorem disjoint_of_subrange {a b sa sb : TextRange} (ha : a.subrange sa)
    (hb : b.subrange sb) (h : sa.disjoint sb) : a.disjoint b := by
  rcases ha with ⟨ha1, ha2⟩
  rcases hb with ⟨hb1, hb2⟩
  rcases h with h | h
  · exact Or.inl (by omega)
  · exact Or.inr (by omega)

/-- The synthesized edit targets the reference's own file. -/
theorem source_edit_file_id (ctx : Ctx) (r : Reference) (nn : String) :
    (source_edit_from_reference ctx r nn).file_id = r.file_range.file_id := rfl

/-- For every reference kind except `RecordFieldExprOrPat` the synthesized
edit's range stays inside the reference's own (well-formed) range. -/
theorem source_edit_delete_subrange (ctx : Ctx) (r : Reference) (nn : String)
    (hk : r.kind ≠ .RecordFieldExprOrPat)
    (hwf : r.file_range.range.start ≤ r.file_range.range.stop) :
    ((source_edit_from_reference ctx r nn).edit.delete).subrange
      r.file_range.range := by
  unfold source_edit_from_reference
  rcases r with ⟨⟨fid, rng⟩, k⟩
  cases k
  case FieldShorthandForField => exact ⟨Nat.le_refl _, hwf⟩
  case FieldShorthandForLocal => exact ⟨hwf, Nat.le_refl _⟩
  case RecordFieldExprOrPat => exact absurd rfl hk
  case Lifetime => exact ⟨Nat.le_refl _, Nat.le_refl _⟩
  case Plain => exact ⟨Nat.le_refl _, Nat.le_refl _⟩

/-- Mapping the Edit Synthesizer over references whose edit ranges sit in
pairwise (per-file) disjoint spans yields per-file disjoint edits. -/
theorem pairwise_disjoint_map_refs (ctx : Ctx) (nn : String)
    (span : Reference → TextRange) (refs : List Reference)
    (h1 : ∀ r ∈ refs,
      ((source_edit_from_reference ctx r nn).edit.delete).subrange (span r))
    (h2 : List.Pairwise (fun r1 r2 =>
      r1.file_range.file_id = r2.file_range.file_id →
      (span r1).disjoint (span r2)) refs) :
    editsDisjointPerFile (refs.map fun r => source_edit_from_reference ctx r nn) := by
  unfold editsDisjointPerFile
  rw [List.pairwise_map]
  refine List.Pairwise.imp_of_mem (fun {a b} ha hb hR => ?_) h2
  intro hfid
  exact disjoint_of_subrange (h1 a ha) (h1 b hb) (hR hfid)

/-- Every index produced by the scan is at least the running offset. -/
theorem matchIndicesFuel_ge (pat : List Char) :
    ∀ (fuel : Nat) (l : List Char) (i : Nat),
    ∀ x ∈ matchIndicesFuel pat fuel l i, i ≤ x := by
  intro fuel
  induction fuel with
  | zero =>
    intro l i x hx
    simp [matchIndicesFuel] at hx
  | succ f ih =>
    intro l i x hx
    cases l with
    | nil => simp [matchIndicesFuel] at hx
    | cons c rest =>
      rw [matchIndicesFuel] at hx
      by_cases hp : pat.isPrefixOf (c :: rest) = true
      · rw [if_pos hp] at hx
        rcases List.mem_cons.mp hx with heq | hmem
        · subst heq
          exact Nat.le_refl _
        · have := ih (List.drop (pat.length - 1) rest) (i + pat.length) x hmem
          omega
      · rw [if_neg hp] at hx
        have := ih rest (i + 1) x hx
        omega

/-- The disjoint matches of a pattern are spaced at least a pattern length
apart. -/
theorem matchIndicesFuel_pairwise (pat : List Char) :
    ∀ (fuel : Nat) (l : List Char) (i : Nat),
    List.Pairwise (fun a b => a + pat.length ≤ b) (matchIndicesFuel pat fuel l i) := by
  intro fuel
  induction fuel with
  | zero =>
    intro l i
    simp [matchIndicesFuel]
  | succ f ih =>
    intro l i
    cases l with
    | nil => simp [matchIndicesFuel]
    | cons c rest =>
      rw [matchIndicesFuel]
      by_cases hp : pat.isPrefixOf (c :: rest) = true
      · rw [if_pos hp]
        refine List.Pairwise.cons ?_ (ih _ _)
        intro x hx
        have := matchIndicesFuel_ge pat f (List.drop (pat.length - 1) rest)
          (i + pat.length) x hx
        omega
      · rw [if_neg hp]
        exact ih _ _

/-- Every edit of a successful `collectSelfEdits` run originates from one of
the scanned indices: its range is the confirmed token's range, or the
enclosing self-parameter node's range for the declaration. -/
theorem collectSelfEdits_mem_src (ctx : Ctx) (fid : FileId) (sr : TextRange)
    (nn : String) :
    ∀ (idxs : List Nat) (es : List SourceFileEdit),
    collectSelfEdits ctx fid sr nn idxs = .ok es →
    ∀ e ∈ es, ∃ idx ∈ idxs, ∃ tok, ctx.self_kw_at fid idx = some tok ∧
      ((tok.parent_self_param = Option.none ∧ e.edit.delete = tok.range) ∨
       (∃ sp, tok.parent_self_param = some sp ∧ e.edit.delete = sp.range)) := by
  intro idxs
  induction idxs with
  | nil =>
    intro es h e he
    rw [collectSelfEdits] at h
    have hes := Except.ok.inj h
    subst hes
    exact absurd he (List.not_mem_nil e)
  | cons i rest ih =>
    intro es h e he
    rw [collectSelfEdits] at h
    split at h
    · obtain ⟨idx, hmem, htok⟩ := ih es h e he
      exact ⟨idx, List.mem_cons_of_mem _ hmem, htok⟩
    · split at h
      · obtain ⟨idx, hmem, htok⟩ := ih es h e he
        exact ⟨idx, List.mem_cons_of_mem _ hmem, htok⟩
      · rename_i u hu2
        split at h
        · rename_i sp hp
          split at h
          · cases h
          · rename_i ed ht
            rcases hrec : collectSelfEdits ctx fid sr nn rest with e' | es'
            · rw [hrec] at h
              simp [Except.map] at h
            · rw [hrec] at h
              simp only [Except.map, Except.ok.injEq] at h
              subst h
              rcases List.mem_cons.mp he with heq | he'
              · subst heq
                obtain ⟨impl_def, tnm, hi, htn, hee⟩ :=
                  (text_edit_from_self_param_some ctx fid sp nn ed).mp ht
                refine ⟨i, List.mem_cons_self _ _, u, hu2, Or.inr ⟨sp, hp, ?_⟩⟩
                rw [hee]
              · obtain ⟨idx, hmem, htok⟩ := ih es' hrec e he'
                exact ⟨idx, List.mem_cons_of_mem _ hmem, htok⟩
        · rename_i hp
          rcases hrec : collectSelfEdits ctx fid sr nn rest with e' | es'
          · rw [hrec] at h
            simp [Except.map] at h
          · rw [hrec] at h
            simp only [Except.map, Except.ok.injEq] at h
            subst h
            rcases List.mem_cons.mp he with heq | he'
            · subst heq
              exact ⟨i, List.mem_cons_self _ _, u, hu2, Or.inl ⟨hp, rfl⟩⟩
            · obtain ⟨idx, hmem, htok⟩ := ih es' hrec e he'
              exact ⟨idx, List.mem_cons_of_mem _ hmem, htok⟩

/-- Under the tree facts that (a) a confirmed `self` token at index `idx`
spans exactly `[idx, idx+4)`, (b) at most one scanned index lies in a
self-parameter, and (c) a self-parameter node's range is disjoint from
every other confirmed `self` token, a successful scan over indices spaced
at least 4 apart produces pairwise disjoint edit ranges. -/
theorem collectSelfEdits_disjoint (ctx : Ctx) (fid : FileId) (sr : TextRange)
    (nn : String)
    (hTok : ∀ idx tok, ctx.self_kw_at fid idx = some tok →
      tok.range = ⟨idx, idx + 4⟩)
    (hOne : ∀ idx1 idx2 t1 t2 sp1 sp2, ctx.self_kw_at fid idx1 = some t1 →
      ctx.self_kw_at fid idx2 = some t2 → t1.parent_self_param = some sp1 →
      t2.parent_self_param = some sp2 → idx1 = idx2)
    (hSp : ∀ idx1 idx2 t1 t2 sp, ctx.self_kw_at fid idx1 = some t1 →
      t1.parent_self_param = some sp → ctx.self_kw_at fid idx2 = some t2 →
      t2.parent_self_param = Option.none → sp.range.disjoint t2.range) :
    ∀ idxs : List Nat, List.Pairwise (fun a b => a + 4 ≤ b) idxs →
    ∀ es, collectSelfEdits ctx fid sr nn idxs = .ok es →
    List.Pairwise (fun e1 e2 => e1.edit.delete.disjoint e2.edit.delete) es := by
  intro idxs
  induction idxs with
  | nil =>
    intro _ es h
    rw [collectSelfEdits] at h
    have hes := Except.ok.inj h
    subst hes
    exact List.Pairwise.nil
  | cons i rest ih =>
    intro hpw es h
    have hpwrest := hpw.of_cons
    have hihead : ∀ x ∈ rest, i + 4 ≤ x := (List.pairwise_cons.mp hpw).1
    rw [collectSelfEdits] at h
    split at h
    · exact ih hpwrest es h
    · split at h
      · exact ih hpwrest es h
      · rename_i u hu2
        split at h
        · rename_i sp hp
          split at h
          · cases h
          · rename_i ed ht
            rcases hrec : collectSelfEdits ctx fid sr nn rest with e' | es'
            · rw [hrec] at h
              simp [Except.map] at h
            · rw [hrec] at h
              simp only [Except.map, Except.ok.injEq] at h
              subst h
              refine List.Pairwise.cons ?_ (ih hpwrest es' hrec)
              intro e2 he2
              obtain ⟨impl_def, tnm, hi, htn, hee⟩ :=
                (text_edit_from_self_param_some ctx fid sp nn ed).mp ht
              obtain ⟨idx2, hidx2, tok2, htok2, hcase⟩ :=
                collectSelfEdits_mem_src ctx fid sr nn rest es' hrec e2 he2
              rcases hcase with ⟨hpn, hdel⟩ | ⟨sp2, hps2, hdel⟩
              · have hd := hSp i idx2 u tok2 sp hu2 hp htok2 hpn
                show ed.delete.disjoint e2.edit.delete
                rw [hee, hdel]
                have htr := hTok idx2 tok2 htok2
                exact hd
              · have heq := hOne i idx2 u tok2 sp sp2 hu2 htok2 hp hps2
                have h4 := hihead idx2 hidx2
                omega
        · rename_i hp
          rcases hrec : collectSelfEdits ctx fid sr nn rest with e' | es'
          · rw [hrec] at h
            simp [Except.map] at h
          · rw [hrec] at h
            simp only [Except.map, Except.ok.injEq] at h
            subst h
            refine List.Pairwise.cons ?_ (ih hpwrest es' hrec)
            intro e2 he2
            have hur : u.range = ⟨i, i + 4⟩ := hTok i u hu2
            obtain ⟨idx2, hidx2, tok2, htok2, hcase⟩ :=
              collectSelfEdits_mem_src ctx fid sr nn rest es' hrec e2 he2
            have h4 := hihead idx2 hidx2
            rcases hcase with ⟨hpn, hdel⟩ | ⟨sp2, hps2, hdel⟩
            · have hur2 := hTok idx2 tok2 htok2
              show u.range.disjoint e2.edit.delete
              rw [hur, hdel, hur2]
              refine Or.inl ?_
              show i + 4 ≤ idx2
              omega
            · have hd := hSp idx2 i tok2 u sp2 htok2 hps2 hu2 hp
              show u.range.disjoint e2.edit.delete
              rw [hdel]
              exact TextRange.disjoint_symm hd

theorem from_edits_source_file_edits (x : List SourceFileEdit)
    (y : List FileSystemEdit) :
    (SourceChange.from_edits x y).source_file_edits = x := rfl

theorem fromFileEdits_source_file_edits (x : List SourceFileEdit) :
    (SourceChange.fromFileEdits x).source_file_edits = x := rfl

/-- `rename_to_self` under its structural preconditions and a matching
parameter type: only the partition emptiness check remains. -/
theorem rename_to_self_ok_eq (ctx : Ctx) (position : FilePosition) (fnm : FnModel)
    (pr : TextRange) (im : ImplModel) (fpt : Ty) (rng0 : TextRange)
    (refs : ReferenceSearchResult)
    (h1 : ctx.fn_at_offset position = some fnm)
    (h2 : fnm.param_range = some pr)
    (h3 : pr.contains position.offset = true)
    (h4 : ctx.impl_at_offset position = some im)
    (h5 : fnm.has_self_param = false)
    (h6 : fnm.first_param_ty = some fpt)
    (h7 : (computeSelfTyForm fpt im.target_ty).1 = im.target_ty)
    (hfar : ctx.find_all_refs position = some ⟨rng0, refs⟩) :
    rename_to_self ctx position =
      (if ((refs.into_iter.partition fun r =>
          (pr.intersect r.file_range.range).isSome).1).isEmpty then
        Except.error "Parameter to rename not found"
      else
        .ok ⟨rng0, SourceChange.fromFileEdits
          ((((refs.into_iter.partition fun r =>
              (pr.intersect r.file_range.range).isSome).2).map
            (fun r => source_edit_from_reference ctx r "self")) ++
           [⟨position.file_id, ⟨pr, (computeSelfTyForm fpt im.target_ty).2⟩⟩])⟩) := by
  unfold rename_to_self
  simp only [h1, h2, h3, h4, h5, h6, hfar]
  rw [if_neg (show ¬(true = false) by simp),
    if_neg (show ¬(false = true) by simp),
    if_neg (show ¬((computeSelfTyForm fpt im.target_ty).1 ≠ im.target_ty) by
      simp [h7])]

/-- C8: for every SourceChange returned successfully by any of the four
rename strategies, the edit ranges collected for any single file are
pairwise disjoint. The reference search's spans (reference ranges, widened
to the enclosing record-field node for shorthand collapses) are assumed
pairwise disjoint per file, self-parameter partitioning facts are taken
from the tree, and the text-scan facts for self-removal are the token
geometry of the `self` keyword. -/
theorem C8_source_change_edits_disjoint :
    (∀ (ctx : Ctx) (position : FilePosition) (new_name : String) (lf : Bool)
        (rng0 rng : TextRange) (refs : ReferenceSearchResult)
        (change : SourceChange) (span : Reference → TextRange),
      ctx.find_all_refs position = some ⟨rng0, refs⟩ →
      (∀ r ∈ refs.into_iter,
        ((source_edit_from_reference ctx r new_name).edit.delete).subrange (span r)) →
      List.Pairwise (fun r1 r2 =>
        r1.file_range.file_id = r2.file_range.file_id →
        (span r1).disjoint (span r2)) refs.into_iter →
      rename_reference ctx position new_name lf = .ok ⟨rng, change⟩ →
      editsDisjointPerFile change.source_file_edits)
    ∧ (∀ (ctx : Ctx) (position : FilePosition) (module : ModuleModel)
        (new_name : String) (rng0 rng : TextRange) (refs : ReferenceSearchResult)
        (change : SourceChange) (span : Reference → TextRange),
      ctx.find_all_refs position = some ⟨rng0, refs⟩ →
      (∀ r ∈ refs.references,
        ((source_edit_from_reference ctx r new_name).edit.delete).subrange (span r)) →
      List.Pairwise (fun r1 r2 =>
        r1.file_range.file_id = r2.file_range.file_id →
        (span r1).disjoint (span r2)) refs.references →
      (∀ (fid : FileId) (dr : TextRange), module.declaration_source = some (fid, dr) →
        ∀ r ∈ refs.references, r.file_range.file_id = fid → dr.disjoint (span r)) →
      rename_mod ctx position module new_name = .ok ⟨rng, change⟩ →
      editsDisjointPerFile change.source_file_edits)
    ∧ (∀ (ctx : Ctx) (position : FilePosition) (fnm : FnModel) (pr : TextRange)
        (im : ImplModel) (fpt : Ty) (rng0 rng : TextRange)
        (refs : ReferenceSearchResult) (change : SourceChange)
        (span : Reference → TextRange),
      ctx.fn_at_offset position = some fnm →
      fnm.param_range = some pr →
      pr.contains position.offset = true →
      ctx.impl_at_offset position = some im →
      fnm.has_self_param = false →
      fnm.first_param_ty = some fpt →
      (computeSelfTyForm fpt im.target_ty).1 = im.target_ty →
      ctx.find_all_refs position = some ⟨rng0, refs⟩ →
      (∀ r ∈ refs.into_iter,
        ((source_edit_from_reference ctx r "self").edit.delete).subrange (span r)) →
      List.Pairwise (fun r1 r2 =>
        r1.file_range.file_id = r2.file_range.file_id →
        (span r1).disjoint (span r2)) refs.into_iter →
      (∀ r ∈ refs.into_iter, pr.intersect r.file_range.range = Option.none →
        r.file_range.file_id = position.file_id → (span r).disjoint pr) →
      rename_to_self ctx position = .ok ⟨rng, change⟩ →
      editsDisjointPerFile change.source_file_edits)
    ∧ (∀ (ctx : Ctx) (position : FilePosition) (st : SelfKwToken)
        (new_name : String) (rng : TextRange) (change : SourceChange),
      (∀ idx tok, ctx.self_kw_at position.file_id idx = some tok →
        tok.range = ⟨idx, idx + 4⟩) →
      (∀ idx1 idx2 t1 t2 sp1 sp2, ctx.self_kw_at position.file_id idx1 = some t1 →
        ctx.self_kw_at position.file_id idx2 = some t2 →
        t1.parent_self_param = some sp1 → t2.parent_self_param = some sp2 →
        idx1 = idx2) →
      (∀ idx1 idx2 t1 t2 sp, ctx.self_kw_at position.file_id idx1 = some t1 →
        t1.parent_self_param = some sp →
        ctx.self_kw_at position.file_id idx2 = some t2 →
        t2.parent_self_param = Option.none → sp.range.disjoint t2.range) →
      rename_self_to_param ctx position st new_name = .ok ⟨rng, change⟩ →
      editsDisjointPerFile change.source_file_edits) := by
  refine ⟨?_, ?_, ?_, ?_⟩
  · intro ctx position nn lf rng0 rng refs change span hfar hs1 hs2 hok
    unfold rename_reference at hok
    simp only [hfar] at hok
    split at hok
    · simp at hok
    · simp at hok
    · split at hok
      · simp at hok
      · have hch : change = SourceChange.fromFileEdits
            (refs.into_iter.map fun r => source_edit_from_reference ctx r nn) :=
          (congrArg RangeInfo.info (Except.ok.inj hok)).symm
        rw [hch]
        exact pairwise_disjoint_map_refs ctx nn span refs.into_iter hs1 hs2
  · intro ctx position module nn rng0 rng refs change span hfar hs1 hs2 hdecl hok
    unfold rename_mod at hok
    simp only [hfar] at hok
    have hch : change = SourceChange.from_edits
        ((match module.declaration_source with
          | some (fid, nameRange) =>
            [(⟨fid, ⟨nameRange, nn⟩⟩ : SourceFileEdit)]
          | Option.none => []) ++
          refs.references.map fun r => source_edit_from_reference ctx r nn)
        (match module.definition_source_kind with
         | .sourceFile =>
           [.MoveFile module.definition_file
             ⟨module.definition_file,
               if module.is_mod_rs then "../" ++ nn ++ "/mod.rs" else nn ++ ".rs"⟩]
         | .inlineModule => []) :=
      (congrArg RangeInfo.info (Except.ok.inj hok)).symm
    rw [hch]
    unfold editsDisjointPerFile
    rw [from_edits_source_file_edits]
    rcases hds : module.declaration_source with _ | ⟨fidd, dr⟩
    · rw [List.nil_append]
      exact pairwise_disjoint_map_refs ctx nn span refs.references hs1 hs2
    · rw [List.pairwise_append]
      refine ⟨by simp, pairwise_disjoint_map_refs ctx nn span refs.references hs1 hs2, ?_⟩
      intro a ha b hb
      have ha' : a = ⟨fidd, ⟨dr, nn⟩⟩ := by simpa using ha
      subst ha'
      obtain ⟨r, hrmem, hrb⟩ := List.mem_map.mp hb
      intro hfid
      have hfidr : r.file_range.file_id = fidd := by
        rw [← hrb] at hfid
        exact hfid.symm
      have hdisj := hdecl fidd dr hds r hrmem hfidr
      rw [← hrb]
      exact disjoint_of_subrange (TextRange.subrange_refl dr) (hs1 r hrmem) hdisj
  · intro ctx position fnm pr im fpt rng0 rng refs change span h1 h2 h3 h4 h5 h6 h7
      hfar hs1 hs2 hsp hok
    rw [rename_to_self_ok_eq ctx position fnm pr im fpt rng0 refs
      h1 h2 h3 h4 h5 h6 h7 hfar] at hok
    by_cases he : ((refs.into_iter.partition fun r =>
        (pr.intersect r.file_range.range).isSome).1).isEmpty
    · rw [if_pos he] at hok
      simp at hok
    · rw [if_neg he] at hok
      have hch : change = SourceChange.fromFileEdits
          ((((refs.into_iter.partition fun r =>
              (pr.intersect r.file_range.range).isSome).2).map
            (fun r => source_edit_from_reference ctx r "self")) ++
           [⟨position.file_id, ⟨pr, (computeSelfTyForm fpt im.target_ty).2⟩⟩]) :=
        (congrArg RangeInfo.info (Except.ok.inj hok)).symm
      rw [hch]
      have husages : (refs.into_iter.partition fun r =>
          (pr.intersect r.file_range.range).isSome).2 =
          refs.into_iter.filter
            (fun r => !((pr.intersect r.file_range.range).isSome)) := by
        rw [List.partition_eq_filter_filter]
        rfl
      unfold editsDisjointPerFile
      rw [fromFileEdits_source_file_edits, List.pairwise_append]
      refine ⟨?_, by simp, ?_⟩
      · rw [husages]
        refine pairwise_disjoint_map_refs ctx "self" span _ ?_ ?_
        · intro r hr
          exact hs1 r (List.mem_filter.mp hr).1
        · exact List.Pairwise.sublist (List.filter_sublist _) hs2
      · intro a ha b hb
        have hb' : b = ⟨position.file_id, ⟨pr, (computeSelfTyForm fpt im.target_ty).2⟩⟩ := by
          simpa using hb
        subst hb'
        rw [husages] at ha
        obtain ⟨r, hrmem, hra⟩ := List.mem_map.mp ha
        obtain ⟨hrin, hrfilt⟩ := List.mem_filter.mp hrmem
        have hnone : pr.intersect r.file_range.range = Option.none := by
          rcases hx : pr.intersect r.file_range.range with _ | v
          · rfl
          · rw [hx] at hrfilt
            simp at hrfilt
        intro hfid
        have hfidr : r.file_range.file_id = position.file_id := by
          rw [← hra] at hfid
          exact hfid
        have hdisj := hsp r hrin hnone hfidr
        rw [← hra]
        exact disjoint_of_subrange (hs1 r hrin) (TextRange.subrange_refl pr) hdisj
  · intro ctx position st nn rng change hTok hOne hSp hok
    rcases hsr : ctx.fn_ast_at_offset position with _ | sr
    · unfold rename_self_to_param at hok
      rw [hsr] at hok
      simp at hok
    · rw [rename_self_to_param_ok_eq ctx position st nn sr hsr] at hok
      rcases hcol : collectSelfEdits ctx position.file_id sr nn
          (matchIndices (ctx.file_text position.file_id) "self") with e | es
      · rw [hcol] at hok
        simp at hok
      · rw [hcol] at hok
        have hok2 : (Except.ok (⟨(match st.parent_self_param with
            | some p => p.range
            | Option.none => st.range), SourceChange.fromFileEdits es⟩ :
            RangeInfo SourceChange) : Except RenameError (RangeInfo SourceChange)) =
            .ok ⟨rng, change⟩ := hok
        have hch : change = SourceChange.fromFileEdits es :=
          (congrArg RangeInfo.info (Except.ok.inj hok2)).symm
        rw [hch]
        have hpw4 : List.Pairwise (fun a b => a + 4 ≤ b)
            (matchIndices (ctx.file_text position.file_id) "self") := by
          have hlen : (String.toList "self").length = 4 := rfl
          have hraw := matchIndicesFuel_pairwise (String.toList "self")
            ((ctx.file_text position.file_id).toList.length)
            ((ctx.file_text position.file_id).toList) 0
          simp only [hlen] at hraw
          exact hraw
        have hdisj := collectSelfEdits_disjoint ctx position.file_id sr nn
          hTok hOne hSp _ hpw4 es hcol
        show List.Pairwise (fun e1 e2 : SourceFileEdit =>
          e1.file_id = e2.file_id → e1.edit.delete.disjoint e2.edit.delete) es
        refine List.Pairwise.imp ?_ hdisj
        intro a b h _
        exact h

/-- C8, witness: the generic rename of `ctxD`'s two plain references (at
0..1 and 5..6 of one file) produces per-file pairwise disjoint edits. -/
theorem C8_source_change_edits_disjoint_witness :
    editsDisjointPerFile (SourceChange.fromFileEdits
      [⟨fileA, ⟨⟨0, 1⟩, "j"⟩⟩, ⟨fileA, ⟨⟨5, 6⟩, "j"⟩⟩]).source_file_edits := by
  refine C8_source_change_edits_disjoint.1 ctxD pos0 "j" false ⟨0, 1⟩ ⟨0, 1⟩ refsD
    (SourceChange.fromFileEdits [⟨fileA, ⟨⟨0, 1⟩, "j"⟩⟩, ⟨fileA, ⟨⟨5, 6⟩, "j"⟩⟩])
    (fun r => r.file_range.range) rfl ?_ ?_ rfl
  · intro r hr
    rcases List.mem_cons.mp hr with h | h
    · subst h
      exact ⟨Nat.le_refl _, Nat.le_refl _⟩
    · have h2 : r = ⟨⟨fileA, ⟨5, 6⟩⟩, .Plain⟩ := by
        simpa [refsD] using h
      subst h2
      exact ⟨Nat.le_refl _, Nat.le_refl _⟩
  · refine List.Pairwise.cons ?_ (List.Pairwise.cons ?_ List.Pairwise.nil)
    · intro r hr hfid
      have h2 : r = ⟨⟨fileA, ⟨5, 6⟩⟩, .Plain⟩ := by
        simpa [refsD] using hr
      subst h2
      refine Or.inl ?_
      show (1 : Nat) ≤ 5
      omega
    · intro r hr
      exact absurd hr (List.not_mem_nil r)

/-- C3, witness: in the concrete scenario the body occurrence of `self`
(at offset 36, confirmed by the tree, not a self-parameter) is rewritten
to `foo`. -/
theorem C3_self_removal_rewrites_witness :
    (⟨fileA, ⟨(⟨36, 40⟩ : TextRange), "foo"⟩⟩ : SourceFileEdit) ∈
      (SourceChange.fromFileEdits
        [⟨fileA, ⟨⟨16, 25⟩, "foo: &mut Foo"⟩⟩,
         ⟨fileA, ⟨⟨36, 40⟩, "foo"⟩⟩]).source_file_edits := by
  have h := (C3_self_removal_rewrites.1 ctxA posA selfTokParamA "foo" ⟨16, 25⟩
    (SourceChange.fromFileEdits
      [⟨fileA, ⟨⟨16, 25⟩, "foo: &mut Foo"⟩⟩, ⟨fileA, ⟨⟨36, 40⟩, "foo"⟩⟩])
    ⟨11, 44⟩ 36 selfTokBodyA rfl rfl (by decide) (by decide) rfl).1 rfl
  exact h

end RA
